import Mathlib

/-!
Verification of the tracker-gg-api update scheduler, checkpoint store and
result reconciler against their natural-language specification.

The definitions below are a shallow embedding of the Python sources:

* src/src/shared/utils.py          (parse_riot_id, encode_riot_id)
* src/src/ingest/enhanced_scraper.py
    (endpoint_priorities, create_checkpoint, should_update_player,
     fetch_endpoint_with_retry, smart_update_player, bulk_smart_update)
* src/src/ingest/unified_data_loader.py
    (_load_v1_aggregated_data, _load_v2_playlist_data, _load_v2_loadout_data,
     _update_segment_stats, _camel_to_snake)
* src/src/shared/database.py       (row models, create_segment_with_stats)

Machine integers are modelled as Int or Nat, the float statistics carried by
the payloads as rationals: the code never computes with them (it stores and
compares constants whose comparison outcomes agree with the rational ones),
so the embedding is exact.  Stateful code is explicit state passing; code
that raises is an Except value; wall-clock reads (datetime.utcnow) are an
explicit time parameter.
-/

namespace TrackerGG

/-! ## Riot id handling, from src/src/shared/utils.py

Strings are modelled as lists of characters; Python str.split with a second
argument 1 splits at the first occurrence only. -/

/-- Split a character list at the first occurrence of the hash character:
the Python split of riot_id on the hash with maxsplit 1, restricted to the
case where a hash occurs.  Returns the parts before and after that hash. -/
def splitFirstHash : List Char → List Char × List Char
  | [] => ([], [])
  | c :: cs =>
    if c = '#' then ([], cs)
    else
      let p := splitFirstHash cs
      (c :: p.1, p.2)

/-- parse_riot_id from src/src/shared/utils.py: if the id contains a hash,
split at the first hash into (username, tag); otherwise (id, empty). -/
def parse_riot_id (s : List Char) : List Char × List Char :=
  if '#' ∈ s then splitFirstHash s else (s, [])

/-- encode_riot_id from src/src/shared/utils.py: parse, then rejoin with
the percent encoding %23 when the tag is nonempty, else the username
unchanged. -/
def encode_riot_id (s : List Char) : List Char :=
  let p := parse_riot_id s
  if p.2 = [] then p.1 else p.1 ++ ('%' :: '2' :: '3' :: p.2)

/-! ## Generic first-match replacement

Python code in this repository repeatedly runs a select ... .first() query
and mutates the returned row; on an insertion-ordered store this is a
replacement of the first element satisfying the query predicate. -/

/-- Replace the first element satisfying p by its image under f; all other
elements are untouched. -/
def replaceFirst {α : Type} (p : α → Bool) (f : α → α) : List α → List α
  | [] => []
  | x :: xs => if p x then f x :: xs else x :: replaceFirst p f xs

/-! ## Endpoint catalog and candidate filtering
From EnhancedValorantScraper in src/src/ingest/enhanced_scraper.py.

The priority weights are the float constants 1.0, 0.9, 0.8, 0.7, 0.6, 0.5,
0.4, 0.3 of endpoint_priorities, the default 0.5 of dict.get, and the
cutoff 0.6; they are modelled as the corresponding rationals (the code only
compares these constants, and every such float comparison has the same
outcome as the rational one). -/

/-- endpoint_priorities from EnhancedValorantScraper.__init__. -/
def endpoint_priorities : List (String × ℚ) :=
  [("v1_competitive_aggregated", 1),
   ("v1_premier_aggregated", mkRat 9 10),
   ("v2_competitive_playlist", mkRat 8 10),
   ("v2_premier_playlist", mkRat 7 10),
   ("v1_unrated_aggregated", mkRat 6 10),
   ("v2_unrated_playlist", mkRat 5 10),
   ("v2_deathmatch_playlist", mkRat 4 10),
   ("v2_loadout_segments", mkRat 3 10)]

/-- self.endpoint_priorities.get(name, 0.5): dictionary lookup with the
default priority 0.5. -/
def priorityOf (name : String) : ℚ :=
  ((endpoint_priorities.find? (fun p => p.1 == name)).map Prod.snd).getD (mkRat 5 10)

/-- The keys of the all_endpoints dictionary built in smart_update_player,
in its insertion order (the URL values are irrelevant to the claims). -/
def all_endpoints : List String :=
  ["v1_competitive_aggregated", "v1_premier_aggregated", "v1_unrated_aggregated",
   "v2_competitive_playlist", "v2_premier_playlist", "v2_unrated_playlist",
   "v2_deathmatch_playlist", "v2_loadout_segments"]

/-- The candidate selection of smart_update_player: in checkpoint mode with
a nonempty fetched set, keep catalog endpoints with priority above 0.6 that
are not in the checkpoint fetched set; otherwise the full catalog.
Mirrors the endpoints_to_fetch dictionary comprehension. -/
def endpointsToFetch (checkpoint_only_recent : Bool) (fetched : List String) : List String :=
  if checkpoint_only_recent && !fetched.isEmpty then
    all_endpoints.filter (fun n => mkRat 6 10 < priorityOf n && !(fetched.contains n))
  else
    all_endpoints

/-- One step of a stable descending insertion sort by priority: the new
element goes in front of the first element whose priority does not exceed
it, so ties keep their original relative order, exactly as Python sorted
with a key and reverse set. -/
def insertByPriorityDesc (e : String) : List String → List String
  | [] => [e]
  | x :: xs =>
    if priorityOf x ≤ priorityOf e then e :: x :: xs
    else x :: insertByPriorityDesc e xs

/-- sorted(endpoints_to_fetch.items(), key priority, reverse): stable sort
by descending priority. -/
def sortByPriorityDesc (l : List String) : List String :=
  l.foldr insertByPriorityDesc []

/-! ## Checkpoints, from UpdateCheckpoint and create_checkpoint -/

/-- The UpdateCheckpoint dataclass.  Times are abstract integers. -/
structure UpdateCheckpoint where
  player_id : String
  last_update : ℤ
  endpoints_fetched : List String
  priority_score : ℚ
  retry_count : ℤ
deriving DecidableEq, Repr

/-- Lookup in the self.checkpoints dictionary (modelled as an
insertion-ordered association list). -/
def lookupCheckpoint (cps : List (String × UpdateCheckpoint)) (pid : String) :
    Option UpdateCheckpoint :=
  (cps.find? (fun p => p.1 == pid)).map Prod.snd

/-- Dictionary assignment self.checkpoints[pid] = cp. -/
def setCheckpoint (cps : List (String × UpdateCheckpoint)) (pid : String)
    (cp : UpdateCheckpoint) : List (String × UpdateCheckpoint) :=
  if cps.any (fun p => p.1 == pid) then
    replaceFirst (fun p => p.1 == pid) (fun _ => (pid, cp)) cps
  else
    cps ++ [(pid, cp)]

/-- create_checkpoint from enhanced_scraper.py: for an existing checkpoint
it updates last_update and resets retry_count to 0, keeping
endpoints_fetched as it is; otherwise it creates a fresh checkpoint with an
empty fetched set and priority score 1.0. -/
def create_checkpoint (cps : List (String × UpdateCheckpoint)) (player_id : String)
    (last_update : ℤ) : UpdateCheckpoint × List (String × UpdateCheckpoint) :=
  match lookupCheckpoint cps player_id with
  | some cp =>
    let cp2 := { cp with last_update := last_update, retry_count := 0 }
    (cp2, setCheckpoint cps player_id cp2)
  | none =>
    let cp : UpdateCheckpoint :=
      { player_id := player_id, last_update := last_update,
        endpoints_fetched := [], priority_score := 1, retry_count := 0 }
    (cp, setCheckpoint cps player_id cp)

/-! ## Per-endpoint fetch with retry, from fetch_endpoint_with_retry

The environment provides, for each attempt index, either an exception from
the underlying client call or an HTTP response with a status code and a
body.  A body is empty (falsy response text), undecodable (nonempty text
that json.loads rejects) or decodable with an abstract payload token. -/

inductive Body where
  | empty : Body
  | undecodable : Body
  | decodable : ℕ → Body
deriving DecidableEq, Repr

inductive AttemptResp where
  | exn : AttemptResp
  | http : ℤ → Body → AttemptResp
deriving DecidableEq, Repr

/-- The status values of the dictionaries returned by
fetch_endpoint_with_retry (success carries the parsed payload token). -/
inductive FetchResult where
  | success : ℕ → FetchResult
  | json_error : FetchResult
  | http_error : FetchResult
  | error : FetchResult
  | max_retries_exceeded : FetchResult
deriving DecidableEq, Repr

/-- The attempt loop of fetch_endpoint_with_retry, with the count of
attempts actually issued.  The argument counts the remaining attempts and
the current attempt index is maxRetries minus remaining; the branch
structure mirrors the Python for loop:
* exception: terminal error on the last attempt, otherwise retry;
* status 200 with nonempty body: success if it decodes, otherwise
  json_error on the last attempt and retry before that (the except branch
  falls through to the next loop iteration);
* status 429 or 403: always continue (on the last attempt this exits the
  loop into the max_retries_exceeded fallback);
* any other response (including 200 with an empty body): http_error on the
  last attempt, otherwise retry. -/
def fetchRetryGo (resps : ℕ → AttemptResp) (maxRetries : ℕ) : ℕ → FetchResult × ℕ
  | 0 => (FetchResult.max_retries_exceeded, 0)
  | remaining + 1 =>
    let attempt := maxRetries - (remaining + 1)
    let isLast : Bool := remaining == 0
    let next : FetchResult × ℕ :=
      let p := fetchRetryGo resps maxRetries remaining
      (p.1, p.2 + 1)
    match resps attempt with
    | AttemptResp.exn =>
      if isLast then (FetchResult.error, 1) else next
    | AttemptResp.http status body =>
      if status == 200 && body != Body.empty then
        match body with
        | Body.decodable d => (FetchResult.success d, 1)
        | _ => if isLast then (FetchResult.json_error, 1) else next
      else if status == 429 || status == 403 then next
      else if isLast then (FetchResult.http_error, 1) else next

/-- fetch_endpoint_with_retry: run the loop over the full attempt budget.
Returns the result together with the number of attempts issued. -/
def fetch_endpoint_with_retry (resps : ℕ → AttemptResp) (maxRetries : ℕ) :
    FetchResult × ℕ :=
  fetchRetryGo resps maxRetries maxRetries

/-! ## The endpoint loop of smart_update_player -/

/-- Outcome of one iteration of the endpoint loop: the fetch returned a
result dictionary, or the body of the try block raised (converted by the
except branch into an error entry). -/
inductive EndpointOutcome where
  | returns : FetchResult → EndpointOutcome
  | raised : EndpointOutcome
deriving DecidableEq, Repr

/-- The loop state of smart_update_player: the results dictionary (in
insertion order), the successful_fetches counter and the checkpoint
endpoints_fetched set (insertion-ordered). -/
structure RunState where
  results : List (String × FetchResult)
  successful_fetches : ℕ
  endpoints_fetched : List String
deriving DecidableEq, Repr

/-- Set insertion for checkpoint.endpoints_fetched.add. -/
def insertIfAbsent (e : String) (l : List String) : List String :=
  if l.contains e then l else l ++ [e]

/-- The endpoint whose presence is required for early termination. -/
def criticalEndpoint : String := "v1_competitive_aggregated"

/-- The early-termination condition checked after each non-raising
iteration: checkpoint mode, at least 3 successful fetches this run, and the
critical endpoint present in the checkpoint fetched set. -/
def earlyTermB (checkpoint_only_recent : Bool) (st : RunState) : Bool :=
  checkpoint_only_recent && decide (3 ≤ st.successful_fetches)
    && st.endpoints_fetched.contains criticalEndpoint

/-- One iteration body: record the result (an exception becomes an error
entry), and on success bump the counter and add the endpoint to the
checkpoint fetched set. -/
def stepEndpoint (env : String → EndpointOutcome) (st : RunState) (e : String) :
    RunState :=
  match env e with
  | EndpointOutcome.raised =>
    { st with results := st.results ++ [(e, FetchResult.error)] }
  | EndpointOutcome.returns r =>
    let st1 := { st with results := st.results ++ [(e, r)] }
    match r with
    | FetchResult.success _ =>
      { st1 with successful_fetches := st1.successful_fetches + 1,
                 endpoints_fetched := insertIfAbsent e st1.endpoints_fetched }
    | _ => st1

/-- The fetch loop: process candidates in order; after a non-raising
iteration, stop when the early-termination condition holds (an exception
skips the check, as the break sits inside the try block). -/
def fetchLoop (checkpoint_only_recent : Bool) (env : String → EndpointOutcome) :
    List String → RunState → RunState
  | [], st => st
  | e :: rest, st =>
    let st1 := stepEndpoint env st e
    match env e with
    | EndpointOutcome.raised => fetchLoop checkpoint_only_recent env rest st1
    | EndpointOutcome.returns _ =>
      if earlyTermB checkpoint_only_recent st1 then st1
      else fetchLoop checkpoint_only_recent env rest st1

/-- The list of loop states after each attempted endpoint, in order; the
loop final state is its last element (or the initial state when no
candidate is attempted). -/
def fetchTrace (checkpoint_only_recent : Bool) (env : String → EndpointOutcome) :
    List String → RunState → List RunState
  | [], _ => []
  | e :: rest, st =>
    let st1 := stepEndpoint env st e
    match env e with
    | EndpointOutcome.raised => st1 :: fetchTrace checkpoint_only_recent env rest st1
    | EndpointOutcome.returns _ =>
      if earlyTermB checkpoint_only_recent st1 then [st1]
      else st1 :: fetchTrace checkpoint_only_recent env rest st1

/-! ## The outcome of smart_update_player -/

/-- The summary block of the returned dictionary (counts are Python ints). -/
structure UpdateSummary where
  total_endpoints : ℤ
  successful : ℤ
  failed : ℤ
  checkpoint_status : String
  priority_achieved : Bool
deriving DecidableEq, Repr

/-- The dictionary returned by smart_update_player (fields irrelevant to
the claims, such as the timestamp string and the anti-detection block
except its retry count, are omitted). -/
structure UpdateOutcome where
  riot_id : String
  checkpoint_mode : Bool
  endpoints : List (String × FetchResult)
  summary : UpdateSummary
  retry_count : ℤ
deriving DecidableEq, Repr

/-- Loop state at entry: empty results, zero successes, and the checkpoint
fetched set carried over. -/
def initRunState (cp : UpdateCheckpoint) : RunState :=
  { results := [], successful_fetches := 0,
    endpoints_fetched := cp.endpoints_fetched }

/-- The body of smart_update_player after session creation succeeded:
select and sort candidates, run the loop, update the checkpoint
(last_update to the current time t2; retry_count incremented on a fully
failed run and reset to 0 otherwise) and assemble the outcome. -/
def smartUpdateCore (riot_id : String) (checkpoint_only_recent : Bool)
    (env : String → EndpointOutcome) (cp : UpdateCheckpoint) (t2 : ℤ) :
    UpdateOutcome × UpdateCheckpoint :=
  let cands := endpointsToFetch checkpoint_only_recent cp.endpoints_fetched
  let sorted := sortByPriorityDesc cands
  let final := fetchLoop checkpoint_only_recent env sorted (initRunState cp)
  let succ := final.successful_fetches
  let cp2 : UpdateCheckpoint :=
    { cp with last_update := t2,
              endpoints_fetched := final.endpoints_fetched,
              retry_count := if succ == 0 then cp.retry_count + 1 else 0 }
  ({ riot_id := riot_id,
     checkpoint_mode := checkpoint_only_recent,
     endpoints := final.results,
     summary :=
       { total_endpoints := (cands.length : ℤ),
         successful := (succ : ℤ),
         failed := (cands.length : ℤ) - (succ : ℤ),
         checkpoint_status := if 0 < succ then "updated" else "failed",
         priority_achieved := decide (2 ≤ succ) },
     retry_count := cp2.retry_count }, cp2)

/-- smart_update_player: the checkpoint is created or refreshed first (at
time t1); if session creation fails its exception propagates out of the
function, modelled as an Except error carrying no endpoint results — there
is no handler around client.create_session inside smart_update_player.
On success the loop runs and the outcome dictionary is returned. -/
def smart_update_player (sessionOk : Bool) (riot_id : String)
    (checkpoint_only_recent : Bool) (env : String → EndpointOutcome)
    (cps : List (String × UpdateCheckpoint)) (t1 t2 : ℤ) :
    Except String UpdateOutcome × List (String × UpdateCheckpoint) :=
  let p := create_checkpoint cps riot_id t1
  if sessionOk then
    let r := smartUpdateCore riot_id checkpoint_only_recent env p.1 t2
    (Except.ok r.1, setCheckpoint p.2 riot_id r.2)
  else
    (Except.error "session creation failed", p.2)

/-! ## Staleness heuristic and bulk update -/

/-- The age component of the priority score in should_update_player: the
elif chain over hours since the last update (float constants 1.0, 0.7, 0.5,
0.3 as rationals). -/
def agePoints (hours_old : ℚ) : ℚ :=
  if 24 < hours_old then 1
  else if 12 < hours_old then mkRat 7 10
  else if 6 < hours_old then mkRat 1 2
  else if 2 < hours_old then mkRat 3 10
  else 0

/-- should_update_player: update when never updated; otherwise compute the
priority score from the age component plus the random jitter (uniform in
[0, 0.2]) and update when the score reaches 0.5.  The hours are
time_since_update.total_seconds() / 3600 in the source; the elapsed hours
are taken directly as the players last_updated datum, since only they are
consumed. -/
def should_update_player (hoursSinceUpdate : Option ℚ) (jitter : ℚ) : Bool :=
  match hoursSinceUpdate with
  | none => true
  | some hours_old => decide (mkRat 1 2 ≤ agePoints hours_old + jitter)

/-- The filtering pass of bulk_smart_update: keep a riot id when it has no
Player row (db returns none) or should_update_player holds for it.  db
yields, for a known player, the hours elapsed since last_updated (none
inside for a null last_updated). -/
def playersToUpdate (db : String → Option (Option ℚ)) (jitterOf : String → ℚ)
    (riot_ids : List String) : List String :=
  riot_ids.filter (fun rid =>
    match db rid with
    | none => true
    | some lastU => should_update_player lastU (jitterOf rid))

/-- One element of the bulk result list: a successful outcome, or the
create_error_response conversion of a captured exception. -/
inductive BulkEntry where
  | outcome : UpdateOutcome → BulkEntry
  | error_response : String → String → BulkEntry
deriving DecidableEq, Repr

/-- The result processing of bulk_smart_update: asyncio.gather with
return_exceptions set hands each task result or its exception to the loop
that converts exceptions into create_error_response entries. -/
def processGatherResult (rid : String) (r : Except String UpdateOutcome) : BulkEntry :=
  match r with
  | Except.ok o => BulkEntry.outcome o
  | Except.error e => BulkEntry.error_response rid e

/-- bulk_smart_update: filter the players, run smart_update_player for each
(checkpoint mode on), and convert per-task exceptions into error entries.
Tasks are modelled independently from the shared checkpoint map, which each
task for a distinct player touches only at its own key. -/
def bulk_smart_update (sessOf : String → Bool) (env : String → EndpointOutcome)
    (db : String → Option (Option ℚ)) (jitterOf : String → ℚ)
    (cps : List (String × UpdateCheckpoint)) (t1 t2 : ℤ)
    (riot_ids : List String) : List BulkEntry :=
  (playersToUpdate db jitterOf riot_ids).map (fun rid =>
    processGatherResult rid (smart_update_player (sessOf rid) rid true env cps t1 t2).1)

/-! ## Result reconciliation, from src/src/ingest/unified_data_loader.py
and src/src/shared/database.py

Stored numeric values are rationals: the loader never computes with them
(float conversion of an already numeric payload value is the identity in
this model), so rationals represent the JSON numbers exactly.  Parsed
datetimes are abstract integers.  The relational store is modelled as
insertion-ordered lists of rows; a select-where query returns the first
matching row, an insert appends. -/

/-- _camel_to_snake: insert an underscore before every uppercase letter
that is not the first character, then lowercase everything. -/
def camelToSnakeGo : List Char → List Char
  | [] => []
  | c :: cs =>
    if c.isUpper then '_' :: c.toLower :: camelToSnakeGo cs
    else c.toLower :: camelToSnakeGo cs

/-- _camel_to_snake on strings (the first character never receives an
underscore but is lowercased). -/
def camel_to_snake (s : String) : String :=
  match s.toList with
  | [] => ""
  | c :: cs => String.mk (c.toLower :: camelToSnakeGo cs)

/-- The attribute names of the HeatmapData model in
src/src/shared/database.py; the update path writes a payload value only
when hasattr holds for the snake-case form of its key. -/
def heatmapColumns : List String :=
  ["id", "player_id", "playlist", "date", "playtime", "kd_ratio", "placement",
   "score", "kills", "deaths", "hs_accuracy", "matches", "wins", "losses",
   "win_pct", "adr", "captured_at"]

/-- The attribute names of the PartyStatistic model. -/
def partyColumns : List String :=
  ["id", "player_id", "playlist", "party_number", "kd_ratio", "placement",
   "matches", "wins", "losses", "win_pct", "captured_at"]

/-- One element of the heatmap array of a v1 aggregated payload: the parsed
date plus the values dictionary.  A well-formed tracker.gg payload carries
exactly the keys playtime, kd, placement, score, kills, deaths, hsAccuracy,
matches, wins, losses, winPct, adr in values; absent keys are none. -/
structure HeatEntry where
  date : ℤ
  playtime : Option ℚ
  kd : Option ℚ
  placement : Option ℚ
  score : Option ℚ
  kills : Option ℚ
  deaths : Option ℚ
  hsAccuracy : Option ℚ
  «matches» : Option ℚ
  wins : Option ℚ
  losses : Option ℚ
  winPct : Option ℚ
  adr : Option ℚ
deriving DecidableEq, Repr

/-- A HeatmapData row. -/
structure HeatRow where
  player_id : ℤ
  playlist : String
  date : ℤ
  playtime : ℚ
  kd_ratio : ℚ
  placement : ℚ
  score : ℚ
  kills : ℚ
  deaths : ℚ
  hs_accuracy : ℚ
  «matches» : ℚ
  wins : ℚ
  losses : ℚ
  win_pct : ℚ
  adr : ℚ
  captured_at : ℤ
deriving DecidableEq, Repr

/-- The update branch of the heatmap loop in _load_v1_aggregated_data: for
each present payload key, setattr on the snake-case key when hasattr holds.
Key by key: playtime, placement, score, kills, deaths, matches, wins,
losses, adr map to themselves; hsAccuracy to hs_accuracy and winPct to
win_pct, both columns; kd maps to kd (the column is kd_ratio, so hasattr
fails and the kd value is dropped — kd_ratio keeps its old value).
Identity fields and captured_at are untouched (no payload key maps to
them). -/
def updateHeatRow (e : HeatEntry) (r : HeatRow) : HeatRow :=
  { r with
    playtime := e.playtime.getD r.playtime
    placement := e.placement.getD r.placement
    score := e.score.getD r.score
    kills := e.kills.getD r.kills
    deaths := e.deaths.getD r.deaths
    hs_accuracy := e.hsAccuracy.getD r.hs_accuracy
    «matches» := e.«matches».getD r.«matches»
    wins := e.wins.getD r.wins
    losses := e.losses.getD r.losses
    win_pct := e.winPct.getD r.win_pct
    adr := e.adr.getD r.adr }

/-- The insert branch of the heatmap loop: values dictionary get with the
defaults of the HeatmapData constructor call (0 and 0.0); here the kd value
does populate kd_ratio.  captured_at takes its default, the current time. -/
def newHeatRow (t : ℤ) (pid : ℤ) (playlist : String) (e : HeatEntry) : HeatRow :=
  { player_id := pid, playlist := playlist, date := e.date,
    playtime := e.playtime.getD 0,
    kd_ratio := e.kd.getD 0,
    placement := e.placement.getD 0,
    score := e.score.getD 0,
    kills := e.kills.getD 0,
    deaths := e.deaths.getD 0,
    hs_accuracy := e.hsAccuracy.getD 0,
    «matches» := e.«matches».getD 0,
    wins := e.wins.getD 0,
    losses := e.losses.getD 0,
    win_pct := e.winPct.getD 0,
    adr := e.adr.getD 0,
    captured_at := t }

/-- The identity query of the heatmap upsert: player, playlist, date. -/
def heatMatch (pid : ℤ) (playlist : String) (date : ℤ) (r : HeatRow) : Bool :=
  r.player_id == pid && r.playlist == playlist && r.date == date

/-- select ... .first() on an insertion-ordered store: the first row
satisfying the query predicate, if any. -/
def firstMatch {α : Type} (p : α → Bool) : List α → Option α
  | [] => none
  | x :: xs => if p x then some x else firstMatch p xs

/-- Generic upsert on an insertion-ordered store: update the first row the
identity query finds, else append a new row.  Every loader method below
follows this select-first / mutate-or-insert shape. -/
def upsert1 {α : Type} (p : α → Bool) (f : α → α) (new : α) (s : List α) : List α :=
  match firstMatch p s with
  | some _ => replaceFirst p f s
  | none => s ++ [new]

/-- Heatmap upsert for one entry. -/
def upsertHeat (t : ℤ) (pid : ℤ) (playlist : String) (e : HeatEntry)
    (rows : List HeatRow) : List HeatRow :=
  upsert1 (heatMatch pid playlist e.date) (updateHeatRow e) (newHeatRow t pid playlist e) rows

/-- One element of the parties array: the party number and the data
dictionary (canonical keys kd, placement, matches, wins, losses, winPct). -/
structure PartyEntry where
  party : ℤ
  kd : Option ℚ
  placement : Option ℚ
  «matches» : Option ℚ
  wins : Option ℚ
  losses : Option ℚ
  winPct : Option ℚ
deriving DecidableEq, Repr

/-- A PartyStatistic row. -/
structure PartyRow where
  player_id : ℤ
  playlist : String
  party_number : ℤ
  kd_ratio : ℚ
  placement : ℚ
  «matches» : ℚ
  wins : ℚ
  losses : ℚ
  win_pct : ℚ
  captured_at : ℤ
deriving DecidableEq, Repr

/-- The update branch of the parties loop: as for heatmap rows, the kd key
snake-cases to kd, not a column, so kd_ratio keeps its old value; winPct
writes win_pct; the other keys map to themselves. -/
def updatePartyRow (e : PartyEntry) (r : PartyRow) : PartyRow :=
  { r with
    placement := e.placement.getD r.placement
    «matches» := e.«matches».getD r.«matches»
    wins := e.wins.getD r.wins
    losses := e.losses.getD r.losses
    win_pct := e.winPct.getD r.win_pct }

/-- The insert branch of the parties loop. -/
def newPartyRow (t : ℤ) (pid : ℤ) (playlist : String) (e : PartyEntry) : PartyRow :=
  { player_id := pid, playlist := playlist, party_number := e.party,
    kd_ratio := e.kd.getD 0,
    placement := e.placement.getD 0,
    «matches» := e.«matches».getD 0,
    wins := e.wins.getD 0,
    losses := e.losses.getD 0,
    win_pct := e.winPct.getD 0,
    captured_at := t }

/-- The identity query of the party upsert: player, playlist, party number. -/
def partyMatch (pid : ℤ) (playlist : String) (party : ℤ) (r : PartyRow) : Bool :=
  r.player_id == pid && r.playlist == playlist && r.party_number == party

/-- Party upsert for one entry. -/
def upsertParty (t : ℤ) (pid : ℤ) (playlist : String) (e : PartyEntry)
    (rows : List PartyRow) : List PartyRow :=
  upsert1 (partyMatch pid playlist e.party) (updatePartyRow e) (newPartyRow t pid playlist e) rows

/-- _load_v1_aggregated_data: fold the heatmap entries, then the party
entries, each with its upsert. -/
def load_v1_heat (t : ℤ) (pid : ℤ) (playlist : String) (entries : List HeatEntry)
    (rows : List HeatRow) : List HeatRow :=
  entries.foldl (fun rows e => upsertHeat t pid playlist e rows) rows

def load_v1_parties (t : ℤ) (pid : ℤ) (playlist : String) (entries : List PartyEntry)
    (rows : List PartyRow) : List PartyRow :=
  entries.foldl (fun rows e => upsertParty t pid playlist e rows) rows

/-- One named statistic of a segment payload (stat_data dictionary with a
value; the optional display fields default as in the code).  The metadata
dictionary is an abstract token, 0 standing for the empty dictionary. -/
structure StatData where
  value : ℚ
  displayName : Option String
  displayCategory : Option String
  category : Option String
  displayValue : Option String
  displayType : Option String
  description : Option String
  metadata : Option ℕ
deriving DecidableEq, Repr

/-- A StatisticValue row. -/
structure StatRow where
  segment_id : ℕ
  stat_name : String
  display_name : String
  display_category : String
  category : String
  value : ℚ
  display_value : String
  display_type : String
  description : Option String
  stat_metadata : ℕ
deriving DecidableEq, Repr

/-- The Python str of the stat value, used as the displayValue default.
Only its determinism matters; toString on the rational stands in for it. -/
def pyStr (q : ℚ) : String := toString q

/-- The new-stat branch shared by create_segment_with_stats and
_update_segment_stats. -/
def mkStatRow (segId : ℕ) (name : String) (d : StatData) : StatRow :=
  { segment_id := segId, stat_name := name,
    display_name := d.displayName.getD name,
    display_category := d.displayCategory.getD "",
    category := d.category.getD "",
    value := d.value,
    display_value := d.displayValue.getD (pyStr d.value),
    display_type := d.displayType.getD "Number",
    description := d.description,
    stat_metadata := d.metadata.getD 0 }

/-- The update branch of _update_segment_stats: every field except the
identity pair is overwritten from the payload (with the same defaults the
insert uses). -/
def updateStatRow (name : String) (d : StatData) (r : StatRow) : StatRow :=
  { r with
    value := d.value,
    display_value := d.displayValue.getD (pyStr d.value),
    display_name := d.displayName.getD name,
    display_category := d.displayCategory.getD "",
    category := d.category.getD "",
    display_type := d.displayType.getD "Number",
    description := d.description,
    stat_metadata := d.metadata.getD 0 }

/-- The identity query for statistics: segment id and stat name. -/
def statMatch (segId : ℕ) (name : String) (r : StatRow) : Bool :=
  r.segment_id == segId && r.stat_name == name

/-- Stat upsert for one named statistic. -/
def upsertStat (segId : ℕ) (pr : String × StatData) (rows : List StatRow) :
    List StatRow :=
  upsert1 (statMatch segId pr.1) (updateStatRow pr.1 pr.2) (mkStatRow segId pr.1 pr.2) rows

/-- _update_segment_stats: fold the stats dictionary with the stat upsert
(entries without a value are skipped in the code; a well-formed payload has
none, and create_segment_with_stats applies the same filter). -/
def update_segment_stats (segId : ℕ) (stats_data : List (String × StatData))
    (rows : List StatRow) : List StatRow :=
  stats_data.foldl (fun rows pr => upsertStat segId pr rows) rows

/-- One element of the data array of a v2 segments payload: the attributes,
metadata and stats the loaders read.  A well-formed payload carries an
expiryDate (the insert path reads it unconditionally). -/
structure SegEntry where
  key : String
  attrPlaylist : Option String
  seasonId : Option String
  schemaVersion : String
  name : String
  expiryDate : ℤ
  stats : List (String × StatData)
deriving DecidableEq, Repr

/-- A PlayerSegment row, with its integer primary key. -/
structure SegRow where
  id : ℕ
  player_id : ℤ
  segment_type : String
  segment_key : String
  playlist : Option String
  season_id : Option String
  schema_version : String
  display_name : String
  expiry_date : ℤ
  captured_at : ℤ
  source_url : String
  source_file : String
deriving DecidableEq, Repr

/-- The identity query of _load_v2_playlist_data: player, segment type
playlist, segment key, playlist. -/
def segMatchPlaylist (pid : ℤ) (playlist : String) (key : String) (r : SegRow) : Bool :=
  r.player_id == pid && r.segment_type == "playlist" && r.segment_key == key
    && r.playlist == some playlist

/-- The identity query of _load_v2_loadout_data: player, segment type
loadout, segment key (no playlist condition). -/
def segMatchLoadout (pid : ℤ) (key : String) (r : SegRow) : Bool :=
  r.player_id == pid && r.segment_type == "loadout" && r.segment_key == key

/-- The update branch shared by both segment loaders: refresh captured_at
and overwrite expiry_date from the payload (present in a well-formed
payload). -/
def updateSegRow (t : ℤ) (e : SegEntry) (r : SegRow) : SegRow :=
  { r with captured_at := t, expiry_date := e.expiryDate }

/-- The persisted store: the four row collections the reconciler touches,
plus the primary-key counter handing out segment ids on insert. -/
structure Store where
  heatmap : List HeatRow
  parties : List PartyRow
  segments : List SegRow
  stats : List StatRow
  nextSegId : ℕ
deriving DecidableEq, Repr

/-- Shared shape of the two segment loaders for one payload entry: update
the first row the identity query finds and run _update_segment_stats with
its id, or create the segment (create_segment_with_stats) with a fresh id
and one StatisticValue row per named statistic. -/
def upsertSegmentWith (p : SegRow → Bool) (mkRow : ℕ → SegRow) (e : SegEntry)
    (t : ℤ) (S : Store) : Store :=
  match firstMatch p S.segments with
  | some seg =>
    { S with segments := replaceFirst p (updateSegRow t e) S.segments,
             stats := update_segment_stats seg.id e.stats S.stats }
  | none =>
    { S with segments := S.segments ++ [mkRow S.nextSegId],
             stats := S.stats ++ e.stats.map (fun pr => mkStatRow S.nextSegId pr.1 pr.2),
             nextSegId := S.nextSegId + 1 }

/-- The insert branch of _load_v2_playlist_data (segment_type playlist, the
playlist passed through, captured_at defaulted to the current time). -/
def newPlaylistSegRow (pid : ℤ) (endpoint_name source_file playlist : String)
    (t : ℤ) (e : SegEntry) (i : ℕ) : SegRow :=
  { id := i, player_id := pid, segment_type := "playlist", segment_key := e.key,
    playlist := some playlist, season_id := e.seasonId,
    schema_version := e.schemaVersion, display_name := e.name,
    expiry_date := e.expiryDate, captured_at := t,
    source_url := endpoint_name, source_file := source_file }

/-- The insert branch of _load_v2_loadout_data (segment_type loadout, the
playlist read from the payload attributes). -/
def newLoadoutSegRow (pid : ℤ) (endpoint_name source_file : String)
    (t : ℤ) (e : SegEntry) (i : ℕ) : SegRow :=
  { id := i, player_id := pid, segment_type := "loadout", segment_key := e.key,
    playlist := e.attrPlaylist, season_id := e.seasonId,
    schema_version := e.schemaVersion, display_name := e.name,
    expiry_date := e.expiryDate, captured_at := t,
    source_url := endpoint_name, source_file := source_file }

/-- _load_v2_playlist_data: fold the payload segments. -/
def load_v2_playlist_data (t : ℤ) (pid : ℤ) (endpoint_name source_file playlist : String)
    (segs : List SegEntry) (S : Store) : Store :=
  segs.foldl (fun S e =>
    upsertSegmentWith (segMatchPlaylist pid playlist e.key)
      (newPlaylistSegRow pid endpoint_name source_file playlist t e) e t S) S

/-- _load_v2_loadout_data: fold the payload segments. -/
def load_v2_loadout_data (t : ℤ) (pid : ℤ) (endpoint_name source_file : String)
    (segs : List SegEntry) (S : Store) : Store :=
  segs.foldl (fun S e =>
    upsertSegmentWith (segMatchLoadout pid e.key)
      (newLoadoutSegRow pid endpoint_name source_file t e) e t S) S

/-- One successful fetch payload, dispatched by endpoint category as in
_load_endpoints_format. -/
inductive EndpointPayload where
  | aggregated : String → List HeatEntry → List PartyEntry → EndpointPayload
  | playlistSegments : String → String → List SegEntry → EndpointPayload
  | loadoutSegments : String → List SegEntry → EndpointPayload
deriving DecidableEq, Repr

/-- Dispatch one payload to its loader. -/
def loadEndpoint (t : ℤ) (pid : ℤ) (source_file : String) (S : Store) :
    EndpointPayload → Store
  | EndpointPayload.aggregated playlist hm parties =>
    { S with heatmap := load_v1_heat t pid playlist hm S.heatmap,
             parties := load_v1_parties t pid playlist parties S.parties }
  | EndpointPayload.playlistSegments endpoint_name playlist segs =>
    load_v2_playlist_data t pid endpoint_name source_file playlist segs S
  | EndpointPayload.loadoutSegments endpoint_name segs =>
    load_v2_loadout_data t pid endpoint_name source_file segs S

/-- The reconciler: process the successful payloads of one fetch result
list in order. -/
def reconcile (t : ℤ) (pid : ℤ) (source_file : String)
    (P : List EndpointPayload) (S : Store) : Store :=
  P.foldl (loadEndpoint t pid source_file) S

/-! ### Flattened item views of a payload, and validity -/

/-- All (playlist, heat entry) pairs of a payload list, in processing order. -/
def heatItems (P : List EndpointPayload) : List (String × HeatEntry) :=
  P.flatMap fun ep =>
    match ep with
    | EndpointPayload.aggregated playlist hm _ => hm.map (fun e => (playlist, e))
    | _ => []

/-- All (playlist, party entry) pairs of a payload list. -/
def partyItems (P : List EndpointPayload) : List (String × PartyEntry) :=
  P.flatMap fun ep =>
    match ep with
    | EndpointPayload.aggregated playlist _ ps => ps.map (fun e => (playlist, e))
    | _ => []

/-- One segment-upsert work item: a playlist segment (with its playlist and
endpoint name) or a loadout segment. -/
inductive SegItem where
  | pl : String → String → SegEntry → SegItem
  | lo : String → SegEntry → SegItem
deriving DecidableEq, Repr

/-- All segment work items of a payload list, in processing order. -/
def segItems (P : List EndpointPayload) : List SegItem :=
  P.flatMap fun ep =>
    match ep with
    | EndpointPayload.aggregated _ _ _ => []
    | EndpointPayload.playlistSegments en playlist segs =>
      segs.map (fun e => SegItem.pl en playlist e)
    | EndpointPayload.loadoutSegments en segs =>
      segs.map (fun e => SegItem.lo en e)

/-- The payload entry of a segment work item. -/
def SegItem.entry : SegItem → SegEntry
  | SegItem.pl _ _ e => e
  | SegItem.lo _ e => e

/-- The identity a segment work item upserts on: its kind together with the
playlist (for playlist segments) and the segment key. -/
def SegItem.ident : SegItem → Sum (String × String) String
  | SegItem.pl _ playlist e => Sum.inl (playlist, e.key)
  | SegItem.lo _ e => Sum.inr e.key

/-- The identity query of a segment work item. -/
def SegItem.pred (pid : ℤ) : SegItem → (SegRow → Bool)
  | SegItem.pl _ playlist e => segMatchPlaylist pid playlist e.key
  | SegItem.lo _ e => segMatchLoadout pid e.key

/-- The insert branch of a segment work item. -/
def SegItem.mkRow (pid : ℤ) (source_file : String) (t : ℤ) : SegItem → (ℕ → SegRow)
  | SegItem.pl en playlist e => newPlaylistSegRow pid en source_file playlist t e
  | SegItem.lo en e => newLoadoutSegRow pid en source_file t e

/-- A well-formed payload list: within one fetch, heat identities
(playlist, date), party identities (playlist, party number), and segment
identities are pairwise distinct, and the stats dictionary of each segment
has distinct keys.  Real tracker.gg payloads satisfy this: one heat entry
per day, one party row per size, one segment per key, dictionaries cannot
repeat keys. -/
def ValidPayload (P : List EndpointPayload) : Prop :=
  ((heatItems P).map (fun pr => (pr.1, pr.2.date))).Nodup ∧
  ((partyItems P).map (fun pr => (pr.1, pr.2.party))).Nodup ∧
  ((segItems P).map SegItem.ident).Nodup ∧
  (∀ it ∈ segItems P, ((SegItem.entry it).stats.map Prod.fst).Nodup)

/-- Store well-formedness: segment primary keys are distinct and below the
counter, and statistic rows reference existing segments (what the database
primary and foreign keys guarantee). -/
def StoreWF (S : Store) : Prop :=
  (∀ r ∈ S.segments, r.id < S.nextSegId) ∧
  (S.segments.map SegRow.id).Nodup ∧
  (∀ st ∈ S.stats, ∃ r ∈ S.segments, r.id = st.segment_id)

/-! ### Proof-support views

The following definitions restate the folds above in a uniform shape used
by the proofs; each is related to the corresponding loader definitionally
or by a small bridging lemma. -/

/-- A row list is fixed for an identity query and update when the query
finds a row the update leaves unchanged: the upsert for that query is then
the identity on the store. -/
def FixedAt {α : Type} (p : α → Bool) (f : α → α) (s : List α) : Prop :=
  ∃ a, firstMatch p s = some a ∧ f a = a

/-- Fold a list of upsert work items over a store, each item bringing its
identity query, update and insert row. -/
def foldUpsert {α ι : Type} (P : ι → α → Bool) (F : ι → α → α) (N : ι → α)
    (items : List ι) (s : List α) : List α :=
  items.foldl (fun s i => upsert1 (P i) (F i) (N i) s) s

/-- The segment-related part of the store. -/
structure SegState where
  segments : List SegRow
  stats : List StatRow
  nextId : ℕ
deriving DecidableEq, Repr

/-- upsertSegmentWith restated on the segment part, the work item fixing
query and insert row. -/
def segStep (pid : ℤ) (source_file : String) (t : ℤ)
    (st : SegState) (it : SegItem) : SegState :=
  match firstMatch (it.pred pid) st.segments with
  | some seg =>
    { st with segments := replaceFirst (it.pred pid) (updateSegRow t it.entry) st.segments,
              stats := update_segment_stats seg.id it.entry.stats st.stats }
  | none =>
    { segments := st.segments ++ [it.mkRow pid source_file t st.nextId],
      stats := st.stats ++ it.entry.stats.map (fun pr => mkStatRow st.nextId pr.1 pr.2),
      nextId := st.nextId + 1 }

/-- The segment work items of a payload list folded over the segment part. -/
def segFold (pid : ℤ) (source_file : String) (t : ℤ)
    (items : List SegItem) (st : SegState) : SegState :=
  items.foldl (segStep pid source_file t) st

/-- The segment part of a store. -/
def Store.segState (S : Store) : SegState :=
  { segments := S.segments, stats := S.stats, nextId := S.nextSegId }

/-- Replace the segment part of a store. -/
def Store.withSegState (S : Store) (st : SegState) : Store :=
  { S with segments := st.segments, stats := st.stats, nextSegId := st.nextId }

/-- Identity query of a heat work item (a playlist paired with an entry). -/
def heatItemP (pid : ℤ) (pr : String × HeatEntry) : HeatRow → Bool :=
  heatMatch pid pr.1 pr.2.date

/-- Update of a heat work item. -/
def heatItemF (pr : String × HeatEntry) : HeatRow → HeatRow :=
  updateHeatRow pr.2

/-- Insert row of a heat work item. -/
def heatItemN (t : ℤ) (pid : ℤ) (pr : String × HeatEntry) : HeatRow :=
  newHeatRow t pid pr.1 pr.2

/-- Identity query of a party work item. -/
def partyItemP (pid : ℤ) (pr : String × PartyEntry) : PartyRow → Bool :=
  partyMatch pid pr.1 pr.2.party

/-- Update of a party work item. -/
def partyItemF (pr : String × PartyEntry) : PartyRow → PartyRow :=
  updatePartyRow pr.2

/-- Insert row of a party work item. -/
def partyItemN (t : ℤ) (pid : ℤ) (pr : String × PartyEntry) : PartyRow :=
  newPartyRow t pid pr.1 pr.2

/-- Well-formedness on the segment part (the segment clauses of StoreWF). -/
def SegWF (st : SegState) : Prop :=
  (∀ r ∈ st.segments, r.id < st.nextId) ∧
  (st.segments.map SegRow.id).Nodup ∧
  (∀ x ∈ st.stats, ∃ r ∈ st.segments, r.id = x.segment_id)

/-- A segment work item is fixed in a segment state when its query finds a
segment row that its update leaves unchanged and every named statistic of
its payload entry is fixed for that segment id: the step for the item is
then the identity. -/
def SegFixed (pid : ℤ) (t : ℤ) (it : SegItem) (st : SegState) : Prop :=
  ∃ seg, firstMatch (it.pred pid) st.segments = some seg ∧
    updateSegRow t it.entry seg = seg ∧
    ∀ pr ∈ it.entry.stats,
      FixedAt (statMatch seg.id pr.1) (updateStatRow pr.1 pr.2) st.stats

/-- The loop-state trace of smart_update_player for a given checkpoint:
candidate selection, priority sort, then the fetch loop. -/
def smartUpdateTrace (checkpoint_only_recent : Bool) (env : String → EndpointOutcome)
    (cp : UpdateCheckpoint) : List RunState :=
  fetchTrace checkpoint_only_recent env
    (sortByPriorityDesc (endpointsToFetch checkpoint_only_recent cp.endpoints_fetched))
    (initRunState cp)

/-! ### Concrete example inputs used by the closed witness statements -/

/-- A heat entry with every canonical key present. -/
def exHeatEntry : HeatEntry :=
  { date := 20240101, playtime := some 3600000, kd := some 2, placement := some 1,
    score := some 250, kills := some 20, deaths := some 10, hsAccuracy := some 30,
    «matches» := some 3, wins := some 2, losses := some 1, winPct := some 66,
    adr := some 150 }

/-- A party entry with every canonical key present. -/
def exPartyEntry : PartyEntry :=
  { party := 2, kd := some 1, placement := some 3, «matches» := some 4,
    wins := some 2, losses := some 2, winPct := some 50 }

/-- A named statistic. -/
def exStatData : StatData :=
  { value := 20, displayName := some "Kills", displayCategory := some "combat",
    category := some "combat", displayValue := some "20",
    displayType := some "Number", description := none, metadata := none }

/-- A playlist segment entry. -/
def exSegEntry : SegEntry :=
  { key := "competitive", attrPlaylist := none, seasonId := none,
    schemaVersion := "statsv2", name := "Competitive", expiryDate := 20240201,
    stats := [("kills", exStatData)] }

/-- A loadout segment entry. -/
def exSegEntry2 : SegEntry :=
  { key := "pistol", attrPlaylist := some "competitive", seasonId := none,
    schemaVersion := "statsv2", name := "Pistol", expiryDate := 20240201,
    stats := [("kills", exStatData)] }

/-- A fetch payload touching every row kind. -/
def exPayload : List EndpointPayload :=
  [EndpointPayload.aggregated "competitive" [exHeatEntry] [exPartyEntry],
   EndpointPayload.playlistSegments "v2_competitive_playlist" "competitive" [exSegEntry],
   EndpointPayload.loadoutSegments "v2_loadout_segments" [exSegEntry2]]

/-- The empty store. -/
def exStore : Store :=
  { heatmap := [], parties := [], segments := [], stats := [], nextSegId := 0 }

/-- An existing heat row with kd_ratio 1. -/
def exHeatRow : HeatRow :=
  { player_id := 1, playlist := "competitive", date := 20240101, playtime := 0,
    kd_ratio := 1, placement := 0, score := 0, kills := 5, deaths := 5,
    hs_accuracy := 0, «matches» := 0, wins := 0, losses := 0, win_pct := 0,
    adr := 0, captured_at := 0 }

/-- A heat entry for the same identity carrying only a kd value of 2. -/
def exKdEntry : HeatEntry :=
  { date := 20240101, playtime := none, kd := some 2, placement := none,
    score := none, kills := none, deaths := none, hsAccuracy := none,
    «matches» := none, wins := none, losses := none, winPct := none, adr := none }

/-- Attempt responses whose first attempt is a 200 with an undecodable body
and whose later attempts are decodable 200 responses. -/
def exResps : ℕ → AttemptResp := fun n =>
  if n = 0 then AttemptResp.http 200 Body.undecodable
  else AttemptResp.http 200 (Body.decodable 7)

/-- Attempt responses that always return an undecodable 200 body. -/
def exRespsAllBad : ℕ → AttemptResp := fun _ =>
  AttemptResp.http 200 Body.undecodable

/-- An environment in which every endpoint fetch succeeds. -/
def exEnvAllOk : String → EndpointOutcome := fun _ =>
  EndpointOutcome.returns (FetchResult.success 0)

/-- An environment in which every endpoint fetch ends in an HTTP error. -/
def exEnvAllFail : String → EndpointOutcome := fun _ =>
  EndpointOutcome.returns FetchResult.http_error

/-- A checkpoint whose fetched set already holds a low-priority endpoint. -/
def exCheckpoint : UpdateCheckpoint :=
  { player_id := "p", last_update := 0,
    endpoints_fetched := ["v2_loadout_segments"], priority_score := 1,
    retry_count := 0 }

/-- The loop state after the first attempted endpoint in the incremental
all-success run from exCheckpoint. -/
def exTraceState : RunState :=
  ((smartUpdateTrace true exEnvAllOk exCheckpoint).dropLast).headD
    { results := [], successful_fetches := 0, endpoints_fetched := [] }

/-- A checkpoint with a nonempty fetched set and a nonzero retry count. -/
def exCheckpointP : UpdateCheckpoint :=
  { player_id := "p", last_update := 0, endpoints_fetched := ["a"],
    priority_score := 1, retry_count := 2 }

/-- A checkpoint map holding one player with a nonempty fetched set and a
nonzero retry count. -/
def exCheckpoints : List (String × UpdateCheckpoint) :=
  [("p", exCheckpointP)]

/-- The outcome of a concrete all-success run for a fresh player. -/
def exOutcome : UpdateOutcome :=
  (smartUpdateCore "p" true exEnvAllOk (create_checkpoint [] "p" 0).1 1).1

/-! # Lemmas about first-match stores and upserts -/

section FirstMatchLemmas

variable {α β : Type}

theorem firstMatch_some_prop {p : α → Bool} :
    ∀ {s : List α} {a : α}, firstMatch p s = some a → p a = true := by
  intro s
  induction s with
  | nil => intro a h; simp [firstMatch] at h
  | cons x xs ih =>
    intro a h
    cases hp : p x with
    | true => rw [firstMatch, if_pos hp] at h; cases h; exact hp
    | false => rw [firstMatch, if_neg (by simp [hp])] at h; exact ih h

theorem firstMatch_mem {p : α → Bool} :
    ∀ {s : List α} {a : α}, firstMatch p s = some a → a ∈ s := by
  intro s
  induction s with
  | nil => intro a h; simp [firstMatch] at h
  | cons x xs ih =>
    intro a h
    cases hp : p x with
    | true => rw [firstMatch, if_pos hp] at h; cases h; exact List.mem_cons_self x xs
    | false =>
      rw [firstMatch, if_neg (by simp [hp])] at h
      exact List.mem_cons_of_mem x (ih h)

theorem firstMatch_eq_none {p : α → Bool} :
    ∀ {s : List α}, (∀ x ∈ s, p x = false) → firstMatch p s = none := by
  intro s
  induction s with
  | nil => intro _; rfl
  | cons x xs ih =>
    intro h
    rw [firstMatch, if_neg (by simp [h x (List.mem_cons_self x xs)])]
    exact ih (fun y hy => h y (List.mem_cons_of_mem x hy))

theorem firstMatch_append_some {p : α → Bool} {s t : List α} {a : α}
    (h : firstMatch p s = some a) : firstMatch p (s ++ t) = some a := by
  induction s with
  | nil => simp [firstMatch] at h
  | cons x xs ih =>
    cases hp : p x with
    | true =>
      rw [firstMatch, if_pos hp] at h
      rw [List.cons_append, firstMatch, if_pos hp]; exact h
    | false =>
      rw [firstMatch, if_neg (by simp [hp])] at h
      rw [List.cons_append, firstMatch, if_neg (by simp [hp])]; exact ih h

theorem firstMatch_append_none {p : α → Bool} {s t : List α}
    (h : firstMatch p s = none) : firstMatch p (s ++ t) = firstMatch p t := by
  induction s with
  | nil => rfl
  | cons x xs ih =>
    cases hp : p x with
    | true => rw [firstMatch, if_pos hp] at h; cases h
    | false =>
      rw [firstMatch, if_neg (by simp [hp])] at h
      rw [List.cons_append, firstMatch, if_neg (by simp [hp])]; exact ih h

theorem replaceFirst_of_fix {p : α → Bool} {f : α → α} :
    ∀ {s : List α} {a : α}, firstMatch p s = some a → f a = a →
      replaceFirst p f s = s := by
  intro s
  induction s with
  | nil => intro a h _; simp [firstMatch] at h
  | cons x xs ih =>
    intro a h hfa
    cases hp : p x with
    | true =>
      rw [firstMatch, if_pos hp] at h; cases h
      rw [replaceFirst, if_pos hp, hfa]
    | false =>
      rw [firstMatch, if_neg (by simp [hp])] at h
      rw [replaceFirst, if_neg (by simp [hp]), ih h hfa]

theorem firstMatch_replaceFirst_self {p : α → Bool} {f : α → α}
    (hpf : ∀ x, p (f x) = p x) :
    ∀ {s : List α} {a : α}, firstMatch p s = some a →
      firstMatch p (replaceFirst p f s) = some (f a) := by
  intro s
  induction s with
  | nil => intro a h; simp [firstMatch] at h
  | cons x xs ih =>
    intro a h
    cases hp : p x with
    | true =>
      rw [firstMatch, if_pos hp] at h; cases h
      rw [replaceFirst, if_pos hp, firstMatch, if_pos (by rw [hpf]; exact hp)]
    | false =>
      rw [firstMatch, if_neg (by simp [hp])] at h
      rw [replaceFirst, if_neg (by simp [hp]), firstMatch, if_neg (by simp [hp])]
      exact ih h

theorem firstMatch_replaceFirst_disj {p q : α → Bool} {g : α → α}
    (hq : ∀ x, q x = true → p x = false) (hg : ∀ x, p (g x) = p x) :
    ∀ s : List α, firstMatch p (replaceFirst q g s) = firstMatch p s := by
  intro s
  induction s with
  | nil => rfl
  | cons x xs ih =>
    cases hqx : q x with
    | true =>
      rw [replaceFirst, if_pos hqx, firstMatch, firstMatch, hg x, hq x hqx]
      simp
    | false =>
      rw [replaceFirst, if_neg (by simp [hqx]), firstMatch, firstMatch]
      cases hp : p x with
      | true => simp
      | false => simp [ih]

theorem mem_replaceFirst {p : α → Bool} {f : α → α} :
    ∀ {s : List α} {x : α}, x ∈ replaceFirst p f s → x ∈ s ∨ ∃ y ∈ s, x = f y := by
  intro s
  induction s with
  | nil => intro x h; simp [replaceFirst] at h
  | cons z zs ih =>
    intro x h
    cases hp : p z with
    | true =>
      rw [replaceFirst, if_pos hp] at h
      rcases List.mem_cons.mp h with h1 | h1
      · exact Or.inr ⟨z, List.mem_cons_self z zs, h1⟩
      · exact Or.inl (List.mem_cons_of_mem z h1)
    | false =>
      rw [replaceFirst, if_neg (by simp [hp])] at h
      rcases List.mem_cons.mp h with h1 | h1
      · exact Or.inl (h1 ▸ List.mem_cons_self z zs)
      · rcases ih h1 with h2 | ⟨y, hy, hxy⟩
        · exact Or.inl (List.mem_cons_of_mem z h2)
        · exact Or.inr ⟨y, List.mem_cons_of_mem z hy, hxy⟩

theorem map_replaceFirst {p : α → Bool} {f : α → α} (g : α → β)
    (hpres : ∀ x, g (f x) = g x) :
    ∀ s : List α, (replaceFirst p f s).map g = s.map g := by
  intro s
  induction s with
  | nil => rfl
  | cons x xs ih =>
    cases hp : p x with
    | true => rw [replaceFirst, if_pos hp]; simp [hpres]
    | false => rw [replaceFirst, if_neg (by simp [hp])]; simp [ih]

theorem upsert1_of_fixedAt {p : α → Bool} {f : α → α} {new : α} {s : List α}
    (h : FixedAt p f s) : upsert1 p f new s = s := by
  rcases h with ⟨a, ha, hfa⟩
  rw [upsert1, ha]
  exact replaceFirst_of_fix ha hfa

theorem fixedAt_upsert1_self {p : α → Bool} {f : α → α} {new : α} (s : List α)
    (hff : ∀ x, f (f x) = f x) (hfn : f new = new) (hpn : p new = true)
    (hpf : ∀ x, p (f x) = p x) : FixedAt p f (upsert1 p f new s) := by
  cases h : firstMatch p s with
  | some a =>
    rw [upsert1, h]
    exact ⟨f a, firstMatch_replaceFirst_self hpf h, hff a⟩
  | none =>
    rw [upsert1, h]
    refine ⟨new, ?_, hfn⟩
    rw [firstMatch_append_none h, firstMatch, if_pos hpn]

theorem fixedAt_upsert1_disj {p q : α → Bool} {f g : α → α} {n2 : α} {s : List α}
    (hq : ∀ x, q x = true → p x = false) (hg : ∀ x, p (g x) = p x)
    (h : FixedAt p f s) : FixedAt p f (upsert1 q g n2 s) := by
  rcases h with ⟨a, ha, hfa⟩
  cases hfm : firstMatch q s with
  | some b =>
    rw [upsert1, hfm]
    exact ⟨a, by rw [firstMatch_replaceFirst_disj hq hg s]; exact ha, hfa⟩
  | none =>
    rw [upsert1, hfm]
    exact ⟨a, firstMatch_append_some ha, hfa⟩

end FirstMatchLemmas

section FoldUpsertLemmas

variable {α ι : Type} {P : ι → α → Bool} {F : ι → α → α} {N : ι → α}

theorem fixedAt_foldUpsert_disj {p : α → Bool} {f : α → α} :
    ∀ {items : List ι} {s : List α},
      (∀ j ∈ items, ∀ x, P j x = true → p x = false) →
      (∀ j x, p (F j x) = p x) →
      FixedAt p f s → FixedAt p f (foldUpsert P F N items s) := by
  intro items
  induction items with
  | nil => intro s _ _ h; exact h
  | cons j rest ih =>
    intro s hdisj hpf h
    rw [foldUpsert, List.foldl_cons]
    exact ih (fun k hk => hdisj k (List.mem_cons_of_mem j hk)) hpf
      (fixedAt_upsert1_disj (hdisj j (List.mem_cons_self j rest)) (hpf j) h)

theorem fixedAt_of_mem_foldUpsert
    (hff : ∀ i x, F i (F i x) = F i x)
    (hfn : ∀ i, F i (N i) = N i)
    (hpn : ∀ i, P i (N i) = true)
    (hpf : ∀ i j x, P i (F j x) = P i x) :
    ∀ {items : List ι} {s : List α},
      items.Pairwise (fun a b => (∀ x, P a x = true → P b x = false) ∧
        (∀ x, P b x = true → P a x = false)) →
      ∀ i ∈ items, FixedAt (P i) (F i) (foldUpsert P F N items s) := by
  intro items
  induction items with
  | nil => intro s _ i hi; cases hi
  | cons j rest ih =>
    intro s hpair i hi
    have hj := (List.pairwise_cons.mp hpair).1
    have hrest := (List.pairwise_cons.mp hpair).2
    rw [foldUpsert, List.foldl_cons]
    rcases List.mem_cons.mp hi with h1 | h1
    · subst h1
      exact fixedAt_foldUpsert_disj
        (fun k hk => (hj k hk).2) (hpf i)
        (fixedAt_upsert1_self s (hff i) (hfn i) (hpn i) (hpf i i))
    · exact ih hrest i h1

theorem foldUpsert_of_all_fixed :
    ∀ {items : List ι} {s : List α},
      (∀ i ∈ items, FixedAt (P i) (F i) s) → foldUpsert P F N items s = s := by
  intro items
  induction items with
  | nil => intro s _; rfl
  | cons j rest ih =>
    intro s h
    rw [foldUpsert, List.foldl_cons, upsert1_of_fixedAt (h j (List.mem_cons_self j rest))]
    exact ih (fun i hi => h i (List.mem_cons_of_mem j hi))

theorem foldUpsert_idem
    (hff : ∀ i x, F i (F i x) = F i x)
    (hfn : ∀ i, F i (N i) = N i)
    (hpn : ∀ i, P i (N i) = true)
    (hpf : ∀ i j x, P i (F j x) = P i x)
    {items : List ι} {s : List α}
    (hpair : items.Pairwise (fun a b => (∀ x, P a x = true → P b x = false) ∧
      (∀ x, P b x = true → P a x = false))) :
    foldUpsert P F N items (foldUpsert P F N items s) = foldUpsert P F N items s :=
  foldUpsert_of_all_fixed (fixedAt_of_mem_foldUpsert hff hfn hpn hpf hpair)

end FoldUpsertLemmas

/-! # Row-level facts for the reconciler -/

theorem getD_getD {β : Type} (o : Option β) (x : β) :
    o.getD (o.getD x) = o.getD x := by
  cases o <;> rfl

theorem updateHeatRow_idem (e : HeatEntry) (r : HeatRow) :
    updateHeatRow e (updateHeatRow e r) = updateHeatRow e r := by
  simp [updateHeatRow, getD_getD]

theorem updateHeatRow_newHeatRow (t : ℤ) (pid : ℤ) (pl : String) (e : HeatEntry) :
    updateHeatRow e (newHeatRow t pid pl e) = newHeatRow t pid pl e := by
  simp [updateHeatRow, newHeatRow, getD_getD]

theorem heatMatch_newHeatRow (t : ℤ) (pid : ℤ) (pl : String) (e : HeatEntry) :
    heatMatch pid pl e.date (newHeatRow t pid pl e) = true := by
  simp [heatMatch, newHeatRow]

theorem heatMatch_updateHeatRow (pid : ℤ) (pl : String) (d : ℤ) (e : HeatEntry)
    (r : HeatRow) : heatMatch pid pl d (updateHeatRow e r) = heatMatch pid pl d r := by
  simp [heatMatch, updateHeatRow]

theorem heatMatch_eq_of_true {pid : ℤ} {pl : String} {d : ℤ} {r : HeatRow}
    (h : heatMatch pid pl d r = true) :
    r.player_id = pid ∧ r.playlist = pl ∧ r.date = d := by
  simp [heatMatch] at h
  tauto

theorem heatMatch_disj {pid : ℤ} {pl1 pl2 : String} {d1 d2 : ℤ}
    (h : (pl1, d1) ≠ (pl2, d2)) (x : HeatRow)
    (hx : heatMatch pid pl1 d1 x = true) : heatMatch pid pl2 d2 x = false := by
  rcases heatMatch_eq_of_true hx with ⟨h1, h2, h3⟩
  by_contra hc
  rcases heatMatch_eq_of_true (by simpa using hc) with ⟨g1, g2, g3⟩
  exact h (by rw [← h2, ← h3, ← g2, ← g3])

theorem updatePartyRow_idem (e : PartyEntry) (r : PartyRow) :
    updatePartyRow e (updatePartyRow e r) = updatePartyRow e r := by
  simp [updatePartyRow, getD_getD]

theorem updatePartyRow_newPartyRow (t : ℤ) (pid : ℤ) (pl : String) (e : PartyEntry) :
    updatePartyRow e (newPartyRow t pid pl e) = newPartyRow t pid pl e := by
  simp [updatePartyRow, newPartyRow, getD_getD]

theorem partyMatch_newPartyRow (t : ℤ) (pid : ℤ) (pl : String) (e : PartyEntry) :
    partyMatch pid pl e.party (newPartyRow t pid pl e) = true := by
  simp [partyMatch, newPartyRow]

theorem partyMatch_updatePartyRow (pid : ℤ) (pl : String) (pn : ℤ) (e : PartyEntry)
    (r : PartyRow) : partyMatch pid pl pn (updatePartyRow e r) = partyMatch pid pl pn r := by
  simp [partyMatch, updatePartyRow]

theorem partyMatch_eq_of_true {pid : ℤ} {pl : String} {pn : ℤ} {r : PartyRow}
    (h : partyMatch pid pl pn r = true) :
    r.player_id = pid ∧ r.playlist = pl ∧ r.party_number = pn := by
  simp [partyMatch] at h
  tauto

theorem partyMatch_disj {pid : ℤ} {pl1 pl2 : String} {n1 n2 : ℤ}
    (h : (pl1, n1) ≠ (pl2, n2)) (x : PartyRow)
    (hx : partyMatch pid pl1 n1 x = true) : partyMatch pid pl2 n2 x = false := by
  rcases partyMatch_eq_of_true hx with ⟨h1, h2, h3⟩
  by_contra hc
  rcases partyMatch_eq_of_true (by simpa using hc) with ⟨g1, g2, g3⟩
  exact h (by rw [← h2, ← h3, ← g2, ← g3])

theorem updateStatRow_idem (nm : String) (d : StatData) (r : StatRow) :
    updateStatRow nm d (updateStatRow nm d r) = updateStatRow nm d r := by
  simp [updateStatRow]

theorem updateStatRow_mkStatRow (i : ℕ) (nm : String) (d : StatData) :
    updateStatRow nm d (mkStatRow i nm d) = mkStatRow i nm d := by
  simp [updateStatRow, mkStatRow]

theorem statMatch_mkStatRow (i : ℕ) (nm : String) (d : StatData) :
    statMatch i nm (mkStatRow i nm d) = true := by
  simp [statMatch, mkStatRow]

theorem statMatch_updateStatRow (i : ℕ) (nm nm2 : String) (d : StatData)
    (r : StatRow) : statMatch i nm (updateStatRow nm2 d r) = statMatch i nm r := by
  simp [statMatch, updateStatRow]

theorem statMatch_eq_of_true {i : ℕ} {nm : String} {r : StatRow}
    (h : statMatch i nm r = true) : r.segment_id = i ∧ r.stat_name = nm := by
  simpa [statMatch] using h

theorem statMatch_disj_name {i1 i2 : ℕ} {nm1 nm2 : String}
    (h : i1 ≠ i2 ∨ nm1 ≠ nm2) (x : StatRow)
    (hx : statMatch i1 nm1 x = true) : statMatch i2 nm2 x = false := by
  rcases statMatch_eq_of_true hx with ⟨h1, h2⟩
  by_contra hc
  rcases statMatch_eq_of_true (by simpa using hc) with ⟨g1, g2⟩
  rcases h with h | h
  · exact h (by rw [← h1, ← g1])
  · exact h (by rw [← h2, ← g2])

theorem statMatch_mkStatRow_other {i1 i2 : ℕ} {nm1 nm2 : String} {d : StatData}
    (h : i1 ≠ i2 ∨ nm1 ≠ nm2) : statMatch i2 nm2 (mkStatRow i1 nm1 d) = false :=
  statMatch_disj_name (by tauto) _ (statMatch_mkStatRow i1 nm1 d)

theorem updateSegRow_idem (t : ℤ) (e : SegEntry) (r : SegRow) :
    updateSegRow t e (updateSegRow t e r) = updateSegRow t e r := by
  simp [updateSegRow]

theorem updateSegRow_id (t : ℤ) (e : SegEntry) (r : SegRow) :
    (updateSegRow t e r).id = r.id := rfl

theorem segItem_pred_updateSegRow (pid : ℤ) (it : SegItem) (t : ℤ) (e : SegEntry)
    (r : SegRow) : it.pred pid (updateSegRow t e r) = it.pred pid r := by
  cases it <;>
    simp [SegItem.pred, segMatchPlaylist, segMatchLoadout, updateSegRow]

theorem segItem_pred_mkRow (pid : ℤ) (f : String) (t : ℤ) (it : SegItem) (i : ℕ) :
    it.pred pid (it.mkRow pid f t i) = true := by
  cases it <;>
    simp [SegItem.pred, SegItem.mkRow, segMatchPlaylist, segMatchLoadout,
      newPlaylistSegRow, newLoadoutSegRow]

theorem updateSegRow_mkRow (pid : ℤ) (f : String) (t : ℤ) (it : SegItem) (i : ℕ) :
    updateSegRow t it.entry (it.mkRow pid f t i) = it.mkRow pid f t i := by
  cases it <;>
    simp [SegItem.entry, SegItem.mkRow, updateSegRow, newPlaylistSegRow, newLoadoutSegRow]

theorem segItem_mkRow_id (pid : ℤ) (f : String) (t : ℤ) (it : SegItem) (i : ℕ) :
    (it.mkRow pid f t i).id = i := by
  cases it <;> rfl

theorem segMatchPlaylist_eq_of_true {pid : ℤ} {pl k : String} {x : SegRow}
    (h : segMatchPlaylist pid pl k x = true) :
    x.player_id = pid ∧ x.segment_type = "playlist" ∧ x.segment_key = k ∧
      x.playlist = some pl := by
  simp [segMatchPlaylist] at h
  tauto

theorem segMatchLoadout_eq_of_true {pid : ℤ} {k : String} {x : SegRow}
    (h : segMatchLoadout pid k x = true) :
    x.player_id = pid ∧ x.segment_type = "loadout" ∧ x.segment_key = k := by
  simp [segMatchLoadout] at h
  tauto

theorem segItem_pred_disj {pid : ℤ} {it jt : SegItem}
    (h : it.ident ≠ jt.ident) (x : SegRow)
    (hx : it.pred pid x = true) : jt.pred pid x = false := by
  by_contra hcb
  have hc : jt.pred pid x = true := by
    cases hj : jt.pred pid x
    · exact absurd hj hcb
    · rfl
  apply h
  cases it with
  | pl en1 pl1 e1 =>
    cases jt with
    | pl en2 pl2 e2 =>
      rcases segMatchPlaylist_eq_of_true hx with ⟨_, _, hk1, hp1⟩
      rcases segMatchPlaylist_eq_of_true hc with ⟨_, _, hk2, hp2⟩
      have hpl : pl1 = pl2 := Option.some.inj (hp1 ▸ hp2)
      have hkk : e1.key = e2.key := by rw [← hk1, hk2]
      simp [SegItem.ident, hpl, hkk]
    | lo en2 e2 =>
      rcases segMatchPlaylist_eq_of_true hx with ⟨_, ht1, _, _⟩
      rcases segMatchLoadout_eq_of_true hc with ⟨_, ht2, _⟩
      have : ("playlist" : String) = "loadout" := by rw [← ht1, ht2]
      exact absurd this (by decide)
  | lo en1 e1 =>
    cases jt with
    | pl en2 pl2 e2 =>
      rcases segMatchLoadout_eq_of_true hx with ⟨_, ht1, _⟩
      rcases segMatchPlaylist_eq_of_true hc with ⟨_, ht2, _, _⟩
      have : ("loadout" : String) = "playlist" := by rw [← ht1, ht2]
      exact absurd this (by decide)
    | lo en2 e2 =>
      rcases segMatchLoadout_eq_of_true hx with ⟨_, _, hk1⟩
      rcases segMatchLoadout_eq_of_true hc with ⟨_, _, hk2⟩
      have hkk : e1.key = e2.key := by rw [← hk1, hk2]
      simp [SegItem.ident, hkk]

/-! # Decomposition of the reconciler into component folds -/

theorem foldUpsert_append {α ι : Type} (P : ι → α → Bool) (F : ι → α → α)
    (N : ι → α) (a b : List ι) (s : List α) :
    foldUpsert P F N (a ++ b) s = foldUpsert P F N b (foldUpsert P F N a s) := by
  simp [foldUpsert, List.foldl_append]

theorem segFold_append (pid : ℤ) (f : String) (t : ℤ) (a b : List SegItem)
    (st : SegState) :
    segFold pid f t (a ++ b) st = segFold pid f t b (segFold pid f t a st) := by
  simp [segFold, List.foldl_append]

theorem load_v1_heat_eq (t : ℤ) (pid : ℤ) (pl : String) (entries : List HeatEntry)
    (rows : List HeatRow) :
    load_v1_heat t pid pl entries rows =
      foldUpsert (heatItemP pid) heatItemF (heatItemN t pid)
        (entries.map fun e => (pl, e)) rows := by
  rw [foldUpsert, List.foldl_map]
  rfl

theorem load_v1_parties_eq (t : ℤ) (pid : ℤ) (pl : String) (entries : List PartyEntry)
    (rows : List PartyRow) :
    load_v1_parties t pid pl entries rows =
      foldUpsert (partyItemP pid) partyItemF (partyItemN t pid)
        (entries.map fun e => (pl, e)) rows := by
  rw [foldUpsert, List.foldl_map]
  rfl

theorem segState_withSegState (S : Store) (st : SegState) :
    (Store.withSegState S st).segState = st := rfl

theorem withSegState_withSegState (S : Store) (st st2 : SegState) :
    Store.withSegState (Store.withSegState S st) st2 = Store.withSegState S st2 := rfl

theorem withSegState_self (S : Store) : Store.withSegState S S.segState = S := rfl

theorem upsertSegmentWith_pl (t : ℤ) (pid : ℤ) (en f pl : String) (e : SegEntry)
    (S : Store) :
    upsertSegmentWith (segMatchPlaylist pid pl e.key)
        (newPlaylistSegRow pid en f pl t e) e t S =
      Store.withSegState S (segStep pid f t S.segState (SegItem.pl en pl e)) := by
  cases h : firstMatch (segMatchPlaylist pid pl e.key) S.segments <;>
    simp [upsertSegmentWith, segStep, SegItem.pred, SegItem.entry, SegItem.mkRow,
      Store.segState, Store.withSegState, h]

theorem upsertSegmentWith_lo (t : ℤ) (pid : ℤ) (en f : String) (e : SegEntry)
    (S : Store) :
    upsertSegmentWith (segMatchLoadout pid e.key)
        (newLoadoutSegRow pid en f t e) e t S =
      Store.withSegState S (segStep pid f t S.segState (SegItem.lo en e)) := by
  cases h : firstMatch (segMatchLoadout pid e.key) S.segments <;>
    simp [upsertSegmentWith, segStep, SegItem.pred, SegItem.entry, SegItem.mkRow,
      Store.segState, Store.withSegState, h]

theorem load_v2_playlist_data_eq (t : ℤ) (pid : ℤ) (en f pl : String) :
    ∀ (segs : List SegEntry) (S : Store),
      load_v2_playlist_data t pid en f pl segs S =
        Store.withSegState S
          (segFold pid f t (segs.map (SegItem.pl en pl)) S.segState) := by
  intro segs
  induction segs with
  | nil => intro S; exact (withSegState_self S).symm
  | cons e rest ih =>
    intro S
    have h1 : load_v2_playlist_data t pid en f pl (e :: rest) S =
        load_v2_playlist_data t pid en f pl rest
          (upsertSegmentWith (segMatchPlaylist pid pl e.key)
            (newPlaylistSegRow pid en f pl t e) e t S) := rfl
    rw [h1, ih, upsertSegmentWith_pl, withSegState_withSegState, segState_withSegState]
    rfl

theorem load_v2_loadout_data_eq (t : ℤ) (pid : ℤ) (en f : String) :
    ∀ (segs : List SegEntry) (S : Store),
      load_v2_loadout_data t pid en f segs S =
        Store.withSegState S
          (segFold pid f t (segs.map (SegItem.lo en)) S.segState) := by
  intro segs
  induction segs with
  | nil => intro S; exact (withSegState_self S).symm
  | cons e rest ih =>
    intro S
    have h1 : load_v2_loadout_data t pid en f (e :: rest) S =
        load_v2_loadout_data t pid en f rest
          (upsertSegmentWith (segMatchLoadout pid e.key)
            (newLoadoutSegRow pid en f t e) e t S) := rfl
    rw [h1, ih, upsertSegmentWith_lo, withSegState_withSegState, segState_withSegState]
    rfl

/-- The reconciler acts componentwise: heat rows and party rows are folds
of their flattened work items, and the segment part is the fold of the
segment work items. -/
theorem reconcile_components (t : ℤ) (pid : ℤ) (f : String) :
    ∀ (P : List EndpointPayload) (S : Store),
      reconcile t pid f P S =
        { heatmap := foldUpsert (heatItemP pid) heatItemF (heatItemN t pid)
            (heatItems P) S.heatmap,
          parties := foldUpsert (partyItemP pid) partyItemF (partyItemN t pid)
            (partyItems P) S.parties,
          segments := (segFold pid f t (segItems P) S.segState).segments,
          stats := (segFold pid f t (segItems P) S.segState).stats,
          nextSegId := (segFold pid f t (segItems P) S.segState).nextId } := by
  intro P
  induction P with
  | nil => intro S; cases S; rfl
  | cons ep rest ih =>
    intro S
    have h1 : reconcile t pid f (ep :: rest) S =
        reconcile t pid f rest (loadEndpoint t pid f S ep) := rfl
    rw [h1, ih]
    cases ep with
    | aggregated pl hm ps =>
      simp [loadEndpoint, heatItems, partyItems, segItems, List.flatMap_cons,
        foldUpsert_append, load_v1_heat_eq, load_v1_parties_eq, Store.segState]
    | playlistSegments en pl segs =>
      simp only [loadEndpoint]
      rw [load_v2_playlist_data_eq]
      simp [heatItems, partyItems, segItems, List.flatMap_cons, segFold_append,
        Store.withSegState, Store.segState]
    | loadoutSegments en segs =>
      simp only [loadEndpoint]
      rw [load_v2_loadout_data_eq]
      simp [heatItems, partyItems, segItems, List.flatMap_cons, segFold_append,
        Store.withSegState, Store.segState]

/-! # Idempotence of the heat and party folds -/

theorem heat_pairwise_of_nodup (pid : ℤ) {items : List (String × HeatEntry)}
    (h : (items.map fun pr => (pr.1, pr.2.date)).Nodup) :
    items.Pairwise (fun a b =>
      (∀ x, heatItemP pid a x = true → heatItemP pid b x = false) ∧
      (∀ x, heatItemP pid b x = true → heatItemP pid a x = false)) := by
  have h2 := List.pairwise_map.mp h
  refine h2.imp ?_
  intro a b hne
  exact ⟨fun x hx => heatMatch_disj hne x hx,
         fun x hx => heatMatch_disj (Ne.symm hne) x hx⟩

theorem party_pairwise_of_nodup (pid : ℤ) {items : List (String × PartyEntry)}
    (h : (items.map fun pr => (pr.1, pr.2.party)).Nodup) :
    items.Pairwise (fun a b =>
      (∀ x, partyItemP pid a x = true → partyItemP pid b x = false) ∧
      (∀ x, partyItemP pid b x = true → partyItemP pid a x = false)) := by
  have h2 := List.pairwise_map.mp h
  refine h2.imp ?_
  intro a b hne
  exact ⟨fun x hx => partyMatch_disj hne x hx,
         fun x hx => partyMatch_disj (Ne.symm hne) x hx⟩

theorem heat_foldUpsert_idem (t : ℤ) (pid : ℤ) {items : List (String × HeatEntry)}
    (hnd : (items.map fun pr => (pr.1, pr.2.date)).Nodup) (s : List HeatRow) :
    foldUpsert (heatItemP pid) heatItemF (heatItemN t pid) items
        (foldUpsert (heatItemP pid) heatItemF (heatItemN t pid) items s) =
      foldUpsert (heatItemP pid) heatItemF (heatItemN t pid) items s := by
  refine foldUpsert_idem ?_ ?_ ?_ ?_ (heat_pairwise_of_nodup pid hnd)
  · intro i x; exact updateHeatRow_idem i.2 x
  · intro i; exact updateHeatRow_newHeatRow t pid i.1 i.2
  · intro i; exact heatMatch_newHeatRow t pid i.1 i.2
  · intro i j x; exact heatMatch_updateHeatRow pid i.1 i.2.date j.2 x

theorem party_foldUpsert_idem (t : ℤ) (pid : ℤ) {items : List (String × PartyEntry)}
    (hnd : (items.map fun pr => (pr.1, pr.2.party)).Nodup) (s : List PartyRow) :
    foldUpsert (partyItemP pid) partyItemF (partyItemN t pid) items
        (foldUpsert (partyItemP pid) partyItemF (partyItemN t pid) items s) =
      foldUpsert (partyItemP pid) partyItemF (partyItemN t pid) items s := by
  refine foldUpsert_idem ?_ ?_ ?_ ?_ (party_pairwise_of_nodup pid hnd)
  · intro i x; exact updatePartyRow_idem i.2 x
  · intro i; exact updatePartyRow_newPartyRow t pid i.1 i.2
  · intro i; exact partyMatch_newPartyRow t pid i.1 i.2
  · intro i j x; exact partyMatch_updatePartyRow pid i.1 i.2.party j.2 x

/-! # Idempotence of the segment fold -/

theorem fixedAt_append {α : Type} {p : α → Bool} {f : α → α} {s : List α}
    (h : FixedAt p f s) (t2 : List α) : FixedAt p f (s ++ t2) := by
  rcases h with ⟨a, ha, hfa⟩
  exact ⟨a, firstMatch_append_some ha, hfa⟩

theorem update_segment_stats_eq (segId : ℕ) (sd : List (String × StatData))
    (rows : List StatRow) :
    update_segment_stats segId sd rows =
      foldUpsert (fun pr => statMatch segId pr.1)
        (fun pr => updateStatRow pr.1 pr.2)
        (fun pr => mkStatRow segId pr.1 pr.2) sd rows := rfl

theorem stat_pairwise_of_nodup (segId : ℕ) {sd : List (String × StatData)}
    (h : (sd.map Prod.fst).Nodup) :
    sd.Pairwise (fun a b =>
      (∀ x, statMatch segId a.1 x = true → statMatch segId b.1 x = false) ∧
      (∀ x, statMatch segId b.1 x = true → statMatch segId a.1 x = false)) := by
  have h2 := List.pairwise_map.mp h
  refine h2.imp ?_
  intro a b hne
  exact ⟨fun x hx => statMatch_disj_name (Or.inr hne) x hx,
         fun x hx => statMatch_disj_name (Or.inr (Ne.symm hne)) x hx⟩

theorem statFixed_after_update (segId : ℕ) (sd : List (String × StatData))
    (rows : List StatRow) (hnd : (sd.map Prod.fst).Nodup) :
    ∀ pr ∈ sd, FixedAt (statMatch segId pr.1) (updateStatRow pr.1 pr.2)
      (update_segment_stats segId sd rows) := by
  rw [update_segment_stats_eq]
  refine fixedAt_of_mem_foldUpsert ?_ ?_ ?_ ?_ (stat_pairwise_of_nodup segId hnd)
  · intro i x; exact updateStatRow_idem i.1 i.2 x
  · intro i; exact updateStatRow_mkStatRow segId i.1 i.2
  · intro i; exact statMatch_mkStatRow segId i.1 i.2
  · intro i j x; exact statMatch_updateStatRow segId i.1 j.1 j.2 x

theorem update_segment_stats_of_fixed (segId : ℕ) {sd : List (String × StatData)}
    {rows : List StatRow}
    (h : ∀ pr ∈ sd, FixedAt (statMatch segId pr.1) (updateStatRow pr.1 pr.2) rows) :
    update_segment_stats segId sd rows = rows := by
  rw [update_segment_stats_eq]
  exact foldUpsert_of_all_fixed h

theorem statFixed_preserved_other {segId segId2 : ℕ} (h : segId ≠ segId2)
    {nm : String} {d : StatData} {rows : List StatRow}
    (hfix : FixedAt (statMatch segId nm) (updateStatRow nm d) rows)
    (sd2 : List (String × StatData)) :
    FixedAt (statMatch segId nm) (updateStatRow nm d)
      (update_segment_stats segId2 sd2 rows) := by
  rw [update_segment_stats_eq]
  refine fixedAt_foldUpsert_disj ?_ ?_ hfix
  · intro j _ x hx
    exact statMatch_disj_name (Or.inl (Ne.symm h)) x hx
  · intro j x; exact statMatch_updateStatRow segId nm j.1 j.2 x

theorem firstMatch_mkStat_map (i : ℕ) :
    ∀ (l : List (String × StatData)) (pr : String × StatData), pr ∈ l →
      (l.map Prod.fst).Nodup →
      firstMatch (statMatch i pr.1) (l.map fun q => mkStatRow i q.1 q.2) =
        some (mkStatRow i pr.1 pr.2) := by
  intro l
  induction l with
  | nil => intro pr h _; cases h
  | cons q rest ih =>
    intro pr hmem hnd
    rcases List.mem_cons.mp hmem with h1 | h1
    · subst h1
      rw [List.map_cons, firstMatch, if_pos (statMatch_mkStatRow i pr.1 pr.2)]
    · rw [List.map_cons] at hnd
      have hq : pr.1 ≠ q.1 := by
        have hnotin := (List.nodup_cons.mp hnd).1
        intro he
        exact hnotin (he ▸ List.mem_map_of_mem Prod.fst h1)
      rw [List.map_cons, firstMatch,
        if_neg (by simp [statMatch_mkStatRow_other (Or.inr (Ne.symm hq))])]
      exact ih pr h1 (List.nodup_cons.mp hnd).2

theorem statMatch_false_of_lt {n : ℕ} {nm : String} {x : StatRow}
    (h : x.segment_id < n) : statMatch n nm x = false := by
  cases hsm : statMatch n nm x
  · rfl
  · rcases statMatch_eq_of_true hsm with ⟨h1, _⟩
    exact absurd (h1 ▸ h) (lt_irrefl n)

/-- One segment step on a fixed item is the identity. -/
theorem segStep_of_fixed (pid : ℤ) (f : String) (t : ℤ) (it : SegItem)
    (st : SegState) (h : SegFixed pid t it st) : segStep pid f t st it = st := by
  rcases h with ⟨seg, hfm, hfix, hstats⟩
  have h1 : replaceFirst (it.pred pid) (updateSegRow t it.entry) st.segments =
      st.segments := replaceFirst_of_fix hfm hfix
  have h2 : update_segment_stats seg.id it.entry.stats st.stats = st.stats :=
    update_segment_stats_of_fixed seg.id hstats
  simp [segStep, hfm, h1, h2]

/-- After its own step, a segment item is fixed (given a well-formed state
and distinct stat names in its payload entry). -/
theorem segFixed_after_step (pid : ℤ) (f : String) (t : ℤ) (it : SegItem)
    (st : SegState) (hwf : SegWF st)
    (hnd : ((SegItem.entry it).stats.map Prod.fst).Nodup) :
    SegFixed pid t it (segStep pid f t st it) := by
  cases hfm : firstMatch (it.pred pid) st.segments with
  | some seg =>
    refine ⟨updateSegRow t it.entry seg, ?_, updateSegRow_idem t it.entry seg, ?_⟩
    · simp only [segStep, hfm]
      exact firstMatch_replaceFirst_self
        (fun x => segItem_pred_updateSegRow pid it t it.entry x) hfm
    · intro pr hpr
      simp only [segStep, hfm, updateSegRow_id]
      exact statFixed_after_update seg.id it.entry.stats st.stats hnd pr hpr
  | none =>
    refine ⟨it.mkRow pid f t st.nextId, ?_, updateSegRow_mkRow pid f t it st.nextId, ?_⟩
    · simp only [segStep, hfm]
      rw [firstMatch_append_none hfm, firstMatch,
        if_pos (segItem_pred_mkRow pid f t it st.nextId)]
    · intro pr hpr
      simp only [segStep, hfm, segItem_mkRow_id]
      refine ⟨mkStatRow st.nextId pr.1 pr.2, ?_, updateStatRow_mkStatRow st.nextId pr.1 pr.2⟩
      have hnone : firstMatch (statMatch st.nextId pr.1) st.stats = none := by
        refine firstMatch_eq_none ?_
        intro x hx
        rcases hwf.2.2 x hx with ⟨r, hr, hid⟩
        exact statMatch_false_of_lt (hid ▸ hwf.1 r hr)
      rw [firstMatch_append_none hnone]
      exact firstMatch_mkStat_map st.nextId it.entry.stats pr hpr hnd

/-- A fixed segment item stays fixed across the step of a different item. -/
theorem segFixed_preserved (pid : ℤ) (f : String) (t : ℤ) {it jt : SegItem}
    (st : SegState) (hwf : SegWF st) (hdisj : SegItem.ident it ≠ SegItem.ident jt)
    (h : SegFixed pid t it st) : SegFixed pid t it (segStep pid f t st jt) := by
  rcases h with ⟨seg, hfm, hfix, hstats⟩
  cases hfm2 : firstMatch (jt.pred pid) st.segments with
  | some seg2 =>
    refine ⟨seg, ?_, hfix, ?_⟩
    · simp only [segStep, hfm2]
      rw [firstMatch_replaceFirst_disj
        (fun x hx => segItem_pred_disj (Ne.symm hdisj) x hx)
        (fun x => segItem_pred_updateSegRow pid it t jt.entry x)]
      exact hfm
    · intro pr hpr
      simp only [segStep, hfm2]
      have hseg : seg ∈ st.segments := firstMatch_mem hfm
      have hseg2 : seg2 ∈ st.segments := firstMatch_mem hfm2
      have hne : seg ≠ seg2 := by
        intro he
        have h1 := firstMatch_some_prop hfm
        have h2 := firstMatch_some_prop hfm2
        have h3 := segItem_pred_disj hdisj seg h1
        rw [← he] at h2
        rw [h2] at h3
        cases h3
      have hid : seg.id ≠ seg2.id := by
        intro he
        exact hne (List.inj_on_of_nodup_map hwf.2.1 hseg hseg2 he)
      exact statFixed_preserved_other hid (hstats pr hpr) jt.entry.stats
  | none =>
    refine ⟨seg, ?_, hfix, ?_⟩
    · simp only [segStep, hfm2]
      exact firstMatch_append_some hfm
    · intro pr hpr
      simp only [segStep, hfm2]
      exact fixedAt_append (hstats pr hpr) _

/-- Membership in the updated statistics keeps segment references within
the old references and the updated segment id. -/
theorem segid_mem_update_segment_stats (segId : ℕ) :
    ∀ (sd : List (String × StatData)) (rows : List StatRow) (x : StatRow),
      x ∈ update_segment_stats segId sd rows →
      (∃ y ∈ rows, x.segment_id = y.segment_id) ∨ x.segment_id = segId := by
  intro sd
  induction sd with
  | nil => intro rows x hx; exact Or.inl ⟨x, hx, rfl⟩
  | cons pr rest ih =>
    intro rows x hx
    have h1 : update_segment_stats segId (pr :: rest) rows =
        update_segment_stats segId rest (upsertStat segId pr rows) := rfl
    rw [h1] at hx
    rcases ih (upsertStat segId pr rows) x hx with ⟨y, hy, hxy⟩ | h2
    · rw [upsertStat, upsert1] at hy
      cases hfm : firstMatch (statMatch segId pr.1) rows with
      | some a =>
        rw [hfm] at hy
        rcases mem_replaceFirst hy with hy1 | ⟨z, hz, hyz⟩
        · exact Or.inl ⟨y, hy1, hxy⟩
        · refine Or.inl ⟨z, hz, ?_⟩
          rw [hxy, hyz]
          simp [updateStatRow]
      | none =>
        rw [hfm] at hy
        rcases List.mem_append.mp hy with hy1 | hy1
        · exact Or.inl ⟨y, hy1, hxy⟩
        · rcases List.mem_singleton.mp hy1 with rfl
          rw [hxy]
          exact Or.inr (by simp [mkStatRow])
    · exact Or.inr h2

/-- segStep preserves well-formedness of the segment state. -/
theorem segWF_step (pid : ℤ) (f : String) (t : ℤ) (jt : SegItem) (st : SegState)
    (hwf : SegWF st) : SegWF (segStep pid f t st jt) := by
  cases hfm : firstMatch (jt.pred pid) st.segments with
  | some seg2 =>
    have hmap : (replaceFirst (jt.pred pid) (updateSegRow t jt.entry)
        st.segments).map SegRow.id = st.segments.map SegRow.id :=
      map_replaceFirst SegRow.id (fun x => updateSegRow_id t jt.entry x) st.segments
    refine ⟨?_, ?_, ?_⟩
    · intro r hr
      simp only [segStep, hfm] at hr ⊢
      rcases mem_replaceFirst hr with h1 | ⟨y, hy, hry⟩
      · exact hwf.1 r h1
      · rw [hry, updateSegRow_id]
        exact hwf.1 y hy
    · simp only [segStep, hfm]
      rw [hmap]
      exact hwf.2.1
    · intro x hx
      simp only [segStep, hfm] at hx ⊢
      rcases segid_mem_update_segment_stats seg2.id jt.entry.stats st.stats x hx with
        ⟨y, hy, hxy⟩ | h2
      · rcases hwf.2.2 y hy with ⟨r, hr, hid⟩
        have : r.id ∈ (replaceFirst (jt.pred pid) (updateSegRow t jt.entry)
            st.segments).map SegRow.id := by
          rw [hmap]
          exact List.mem_map_of_mem SegRow.id hr
        rcases List.mem_map.mp this with ⟨r2, hr2, hr2id⟩
        exact ⟨r2, hr2, by rw [hr2id, hid, hxy]⟩
      · have hseg2 : seg2 ∈ st.segments := firstMatch_mem hfm
        have : seg2.id ∈ (replaceFirst (jt.pred pid) (updateSegRow t jt.entry)
            st.segments).map SegRow.id := by
          rw [hmap]
          exact List.mem_map_of_mem SegRow.id hseg2
        rcases List.mem_map.mp this with ⟨r2, hr2, hr2id⟩
        exact ⟨r2, hr2, by rw [hr2id, h2]⟩
  | none =>
    refine ⟨?_, ?_, ?_⟩
    · intro r hr
      simp only [segStep, hfm] at hr ⊢
      rcases List.mem_append.mp hr with h1 | h1
      · exact Nat.lt_succ_of_lt (hwf.1 r h1)
      · rcases List.mem_singleton.mp h1 with rfl
        rw [segItem_mkRow_id]
        exact Nat.lt_succ_self st.nextId
    · simp only [segStep, hfm]
      rw [List.map_append]
      refine List.Nodup.append hwf.2.1 (by simp) ?_
      intro a ha hb
      simp [segItem_mkRow_id] at hb
      rcases List.mem_map.mp ha with ⟨r, hr, hrid⟩
      have := hwf.1 r hr
      rw [hrid, hb] at this
      exact absurd this (lt_irrefl st.nextId)
    · intro x hx
      simp only [segStep, hfm] at hx ⊢
      rcases List.mem_append.mp hx with h1 | h1
      · rcases hwf.2.2 x h1 with ⟨r, hr, hid⟩
        exact ⟨r, List.mem_append_left _ hr, hid⟩
      · rcases List.mem_map.mp h1 with ⟨q, hq, hxq⟩
        refine ⟨jt.mkRow pid f t st.nextId,
          List.mem_append_right _ (List.mem_singleton.mpr rfl), ?_⟩
        rw [segItem_mkRow_id, ← hxq]
        simp [mkStatRow]

/-- Well-formedness is preserved along the whole segment fold. -/
theorem segWF_fold (pid : ℤ) (f : String) (t : ℤ) :
    ∀ (items : List SegItem) (st : SegState), SegWF st →
      SegWF (segFold pid f t items st) := by
  intro items
  induction items with
  | nil => intro st h; exact h
  | cons j rest ih =>
    intro st h
    exact ih (segStep pid f t st j) (segWF_step pid f t j st h)

/-- A fixed item stays fixed along a fold of items with different
identities. -/
theorem segFixed_fold_preserved (pid : ℤ) (f : String) (t : ℤ) {it : SegItem} :
    ∀ (items : List SegItem) (st : SegState), SegWF st →
      (∀ jt ∈ items, SegItem.ident it ≠ SegItem.ident jt) →
      SegFixed pid t it st → SegFixed pid t it (segFold pid f t items st) := by
  intro items
  induction items with
  | nil => intro st _ _ h; exact h
  | cons j rest ih =>
    intro st hwf hdisj h
    exact ih (segStep pid f t st j) (segWF_step pid f t j st hwf)
      (fun k hk => hdisj k (List.mem_cons_of_mem j hk))
      (segFixed_preserved pid f t st hwf (hdisj j (List.mem_cons_self j rest)) h)

/-- After the fold, every item of the work list is fixed. -/
theorem segFixed_of_mem_fold (pid : ℤ) (f : String) (t : ℤ) :
    ∀ (items : List SegItem) (st : SegState), SegWF st →
      items.Pairwise (fun a b => SegItem.ident a ≠ SegItem.ident b) →
      (∀ it ∈ items, ((SegItem.entry it).stats.map Prod.fst).Nodup) →
      ∀ it ∈ items, SegFixed pid t it (segFold pid f t items st) := by
  intro items
  induction items with
  | nil => intro st _ _ _ it hit; cases hit
  | cons j rest ih =>
    intro st hwf hpair hnames it hit
    have hj := (List.pairwise_cons.mp hpair).1
    have hrest := (List.pairwise_cons.mp hpair).2
    rcases List.mem_cons.mp hit with h1 | h1
    · subst h1
      exact segFixed_fold_preserved pid f t rest (segStep pid f t st it)
        (segWF_step pid f t it st hwf) hj
        (segFixed_after_step pid f t it st hwf
          (hnames it (List.mem_cons_self it rest)))
    · exact ih (segStep pid f t st j) (segWF_step pid f t j st hwf) hrest
        (fun k hk => hnames k (List.mem_cons_of_mem j hk)) it h1

/-- A fold over all-fixed items is the identity. -/
theorem segFold_of_all_fixed (pid : ℤ) (f : String) (t : ℤ) :
    ∀ (items : List SegItem) (st : SegState),
      (∀ it ∈ items, SegFixed pid t it st) → segFold pid f t items st = st := by
  intro items
  induction items with
  | nil => intro st _; rfl
  | cons j rest ih =>
    intro st h
    have h1 : segFold pid f t (j :: rest) st =
        segFold pid f t rest (segStep pid f t st j) := rfl
    rw [h1, segStep_of_fixed pid f t j st (h j (List.mem_cons_self j rest))]
    exact ih st (fun i hi => h i (List.mem_cons_of_mem j hi))

/-- Idempotence of the segment fold. -/
theorem segFold_idem (pid : ℤ) (f : String) (t : ℤ) (items : List SegItem)
    (st : SegState) (hwf : SegWF st)
    (hpair : items.Pairwise (fun a b => SegItem.ident a ≠ SegItem.ident b))
    (hnames : ∀ it ∈ items, ((SegItem.entry it).stats.map Prod.fst).Nodup) :
    segFold pid f t items (segFold pid f t items st) = segFold pid f t items st :=
  segFold_of_all_fixed pid f t items (segFold pid f t items st)
    (segFixed_of_mem_fold pid f t items st hwf hpair hnames)

theorem segState_eta (st : SegState) :
    SegState.mk st.segments st.stats st.nextId = st := rfl

theorem segState_mk (a : List HeatRow) (b : List PartyRow) (c : List SegRow)
    (d : List StatRow) (e : ℕ) :
    (Store.mk a b c d e).segState = SegState.mk c d e := rfl

/-! # Claim C1 -/

/-- C1.  Reconciliation is idempotent: for every player, every well-formed
fetch payload list and every well-formed store, reconciling the payload
twice in sequence leaves the persisted store — the HeatmapData,
PartyStatistic, PlayerSegment and StatisticValue row lists, with all their
field values, and the key counter — exactly as reconciling it once does. -/
theorem reconcile_idempotent (t : ℤ) (pid : ℤ) (f : String)
    (P : List EndpointPayload) (S : Store)
    (hP : ValidPayload P) (hS : StoreWF S) :
    reconcile t pid f P (reconcile t pid f P S) = reconcile t pid f P S := by
  rcases hP with ⟨h1, h2, h3, h4⟩
  have hR := reconcile_components t pid f P S
  have hRR := reconcile_components t pid f P (reconcile t pid f P S)
  rw [hRR, hR]
  simp only [segState_mk, segState_eta]
  rw [heat_foldUpsert_idem t pid h1, party_foldUpsert_idem t pid h2,
    segFold_idem pid f t (segItems P) S.segState hS (List.pairwise_map.mp h3) h4]

/-- Witness for C1: the validity and well-formedness hypotheses hold at a
concrete payload and the empty store, where the theorem applies. -/
theorem reconcile_idempotent_witness :
    ValidPayload exPayload ∧ StoreWF exStore ∧
      reconcile 5 1 "file.json" exPayload (reconcile 5 1 "file.json" exPayload exStore) =
        reconcile 5 1 "file.json" exPayload exStore :=
  ⟨by unfold ValidPayload; decide, by unfold StoreWF; decide,
    reconcile_idempotent 5 1 "file.json" exPayload exStore
      (by unfold ValidPayload; decide) (by unfold StoreWF; decide)⟩

/-! # Claim C2 -/

/-- C2 counterexample.  A heat entry whose values carry kd 2 is reconciled
against a store holding a matching row with kd_ratio 1: after the upsert
exactly one row remains, but its kd_ratio is still the old 1, not the
payload value 2 — the update does not overwrite every value field (the kd
key snake-cases to kd, which is not a HeatmapData column). -/
theorem heat_upsert_kd_counterexample :
    exKdEntry.kd = some 2 ∧
    (upsertHeat 7 1 "competitive" exKdEntry [exHeatRow]).map HeatRow.kd_ratio = [1] ∧
    (1 : ℚ) ≠ 2 := by
  refine ⟨rfl, ?_, by decide⟩
  decide

/-- C2 amended.  The TimelinePoint upsert looks up by identity (player,
playlist, date) and, when a row matches, overwrites exactly the value
fields whose camelCase key snake-cases to an existing column — playtime,
placement, score, kills, deaths, matches, wins, losses, adr themselves, and
hsAccuracy and winPct to hs_accuracy and win_pct — while the kd key maps to
kd, which is not a column, so kd_ratio keeps its old value; identity fields
and captured_at are untouched; a new row is inserted only when no match
exists.  Consequently, after reconciling two entries for the same identity
with different kill counts into an empty store, exactly one row exists and
it holds the kill count of the second entry. -/
theorem heat_upsert_amended :
    (∀ (e : HeatEntry) (r : HeatRow),
      (updateHeatRow e r).playtime = e.playtime.getD r.playtime ∧
      (updateHeatRow e r).placement = e.placement.getD r.placement ∧
      (updateHeatRow e r).score = e.score.getD r.score ∧
      (updateHeatRow e r).kills = e.kills.getD r.kills ∧
      (updateHeatRow e r).deaths = e.deaths.getD r.deaths ∧
      (updateHeatRow e r).hs_accuracy = e.hsAccuracy.getD r.hs_accuracy ∧
      (updateHeatRow e r).«matches» = e.«matches».getD r.«matches» ∧
      (updateHeatRow e r).wins = e.wins.getD r.wins ∧
      (updateHeatRow e r).losses = e.losses.getD r.losses ∧
      (updateHeatRow e r).win_pct = e.winPct.getD r.win_pct ∧
      (updateHeatRow e r).adr = e.adr.getD r.adr ∧
      (updateHeatRow e r).kd_ratio = r.kd_ratio ∧
      (updateHeatRow e r).player_id = r.player_id ∧
      (updateHeatRow e r).playlist = r.playlist ∧
      (updateHeatRow e r).date = r.date ∧
      (updateHeatRow e r).captured_at = r.captured_at) ∧
    (camel_to_snake "kd" = "kd" ∧ heatmapColumns.contains "kd" = false) ∧
    (camel_to_snake "hsAccuracy" = "hs_accuracy" ∧
      camel_to_snake "winPct" = "win_pct" ∧
      camel_to_snake "kills" = "kills" ∧
      heatmapColumns.contains "hs_accuracy" = true ∧
      heatmapColumns.contains "win_pct" = true ∧
      heatmapColumns.contains "kills" = true) ∧
    (∀ (t : ℤ) (pid : ℤ) (pl : String) (e1 e2 : HeatEntry) (k : ℚ),
      e1.date = e2.date → e2.kills = some k →
      ∃ r, upsertHeat t pid pl e2 (upsertHeat t pid pl e1 []) = [r] ∧ r.kills = k) := by
  refine ⟨?_, ⟨by decide, by decide⟩, ⟨by decide, by decide, by decide, by decide, by decide, by decide⟩, ?_⟩
  · intro e r
    simp [updateHeatRow]
  · intro t pid pl e1 e2 k hdate hk
    refine ⟨updateHeatRow e2 (newHeatRow t pid pl e1), ?_, by simp [updateHeatRow, hk]⟩
    have h1 : upsertHeat t pid pl e1 [] = [newHeatRow t pid pl e1] := rfl
    rw [h1]
    have hmatch : heatMatch pid pl e2.date (newHeatRow t pid pl e1) = true := by
      rw [← hdate]
      exact heatMatch_newHeatRow t pid pl e1
    rw [upsertHeat, upsert1, firstMatch, if_pos hmatch, replaceFirst, if_pos hmatch]

/-- Witness for C2: the amended upsert applied to two concrete entries for
the same date with kill counts 5 and 9 leaves one row with kills 9. -/
theorem heat_upsert_amended_witness :
    exHeatEntry.date = exHeatEntry.date ∧ exHeatEntry.kills = some 20 ∧
    ∃ r, upsertHeat 7 1 "competitive" exHeatEntry
        (upsertHeat 7 1 "competitive" exHeatEntry []) = [r] ∧ r.kills = 20 :=
  ⟨rfl, rfl, heat_upsert_amended.2.2.2 7 1 "competitive" exHeatEntry exHeatEntry 20
    rfl rfl⟩

/-! # Claim C3 -/

/-- C3 counterexample.  The first attempt returns HTTP 200 with an
undecodable body, yet fetch_endpoint_with_retry does not record a terminal
json-error there: it issues a second attempt, which succeeds — two attempts
are issued and the result is a success, not a json-error failure. -/
theorem json_error_retry_counterexample :
    exResps 0 = AttemptResp.http 200 Body.undecodable ∧
    fetch_endpoint_with_retry exResps 3 = (FetchResult.success 7, 2) := by
  refine ⟨rfl, ?_⟩
  decide

/-- C3 amended.  A JSON-decode failure of a 200 response is not terminal
immediately: the loop falls through to the next attempt like other
recoverable failures, and a json-error terminal failure is recorded only
when the decode failure happens on the final attempt; in particular, when
every attempt of a positive budget returns an undecodable 200 body, the
result is a json_error after exactly the full attempt budget. -/
theorem json_error_amended (resps : ℕ → AttemptResp) (maxRetries : ℕ)
    (hpos : 0 < maxRetries)
    (hall : ∀ i < maxRetries, resps i = AttemptResp.http 200 Body.undecodable) :
    fetch_endpoint_with_retry resps maxRetries = (FetchResult.json_error, maxRetries) := by
  have key : ∀ r, 0 < r → r ≤ maxRetries →
      fetchRetryGo resps maxRetries r = (FetchResult.json_error, r) := by
    intro r
    induction r with
    | zero => intro h _; exact absurd h (lt_irrefl 0)
    | succ k ih =>
      intro _ hle
      have hatt : maxRetries - (k + 1) < maxRetries := by omega
      rw [fetchRetryGo, hall _ hatt]
      cases k with
      | zero => simp
      | succ k2 =>
        have hrec := ih (Nat.succ_pos k2) (by omega)
        simp [hrec]
  exact key maxRetries hpos (le_refl maxRetries)

/-- Witness for C3: three undecodable 200 responses give a json_error after
exactly 3 attempts. -/
theorem json_error_amended_witness :
    (0 < 3 ∧ ∀ i < 3, exRespsAllBad i = AttemptResp.http 200 Body.undecodable) ∧
    fetch_endpoint_with_retry exRespsAllBad 3 = (FetchResult.json_error, 3) :=
  ⟨⟨by decide, by decide⟩,
    json_error_amended exRespsAllBad 3 (by decide) (by decide)⟩

/-! # Claim C4 -/

theorem earlyTermB_stepEndpoint_raised (env : String → EndpointOutcome)
    (st : RunState) (e : String) (h : env e = EndpointOutcome.raised) :
    earlyTermB true (stepEndpoint env st e) = earlyTermB true st := by
  simp [earlyTermB, stepEndpoint, h]

/-- Along the fetch loop of an incremental run, every state that is
followed by a further attempt fails the early-termination condition. -/
theorem fetchTrace_no_early (env : String → EndpointOutcome) :
    ∀ (cands : List String) (st : RunState), earlyTermB true st = false →
      ∀ s ∈ (fetchTrace true env cands st).dropLast, earlyTermB true s = false := by
  intro cands
  induction cands with
  | nil => intro st _ s hs; simp [fetchTrace] at hs
  | cons e rest ih =>
    intro st h s hs
    cases henv : env e with
    | raised =>
      rw [fetchTrace] at hs
      simp only [henv] at hs
      have hst1 : earlyTermB true (stepEndpoint env st e) = false := by
        rw [earlyTermB_stepEndpoint_raised env st e henv]
        exact h
      cases htr : fetchTrace true env rest (stepEndpoint env st e) with
      | nil => rw [htr] at hs; simp at hs
      | cons a l =>
        rw [htr] at hs
        rw [List.dropLast_cons₂] at hs
        rcases List.mem_cons.mp hs with h1 | h1
        · rw [h1]; exact hst1
        · have := ih (stepEndpoint env st e) hst1 s
          rw [htr] at this
          exact this h1
    | returns r =>
      rw [fetchTrace] at hs
      simp only [henv] at hs
      cases hterm : earlyTermB true (stepEndpoint env st e) with
      | true => rw [if_pos hterm] at hs; simp at hs
      | false =>
        rw [if_neg (by simp [hterm])] at hs
        cases htr : fetchTrace true env rest (stepEndpoint env st e) with
        | nil => rw [htr] at hs; simp at hs
        | cons a l =>
          rw [htr] at hs
          rw [List.dropLast_cons₂] at hs
          rcases List.mem_cons.mp hs with h1 | h1
          · rw [h1]; exact hterm
          · have := ih (stepEndpoint env st e) hterm s
            rw [htr] at this
            exact this h1

theorem earlyTermB_false_iff (s : RunState) :
    earlyTermB true s = false ↔
      ¬ (3 ≤ s.successful_fetches ∧ criticalEndpoint ∈ s.endpoints_fetched) := by
  simp [earlyTermB]

/-- C4.  In every incremental run (checkpoint mode on), once at least 3
endpoint fetches have succeeded and the priority-1.0 endpoint
v1_competitive_aggregated is in the checkpoint fetched set, no further
candidate endpoint is attempted: every loop state of the run that is
followed by another attempted endpoint (every non-final trace state) fails
that condition. -/
theorem early_termination (env : String → EndpointOutcome) (cp : UpdateCheckpoint) :
    priorityOf criticalEndpoint = 1 ∧
    ∀ s ∈ (smartUpdateTrace true env cp).dropLast,
      ¬ (3 ≤ s.successful_fetches ∧ criticalEndpoint ∈ s.endpoints_fetched) := by
  refine ⟨by decide, ?_⟩
  intro s hs
  refine (earlyTermB_false_iff s).mp ?_
  refine fetchTrace_no_early env _ (initRunState cp) ?_ s hs
  simp [earlyTermB, initRunState]

/-- Witness for C4: in the all-success incremental run from a checkpoint
with one low-priority endpoint fetched, the state after the first attempt
is followed by more attempts and indeed fails the condition. -/
theorem early_termination_witness :
    exTraceState ∈ (smartUpdateTrace true exEnvAllOk exCheckpoint).dropLast ∧
    ¬ (3 ≤ exTraceState.successful_fetches ∧
        criticalEndpoint ∈ exTraceState.endpoints_fetched) :=
  ⟨by decide,
    (early_termination exEnvAllOk exCheckpoint).2 exTraceState (by decide)⟩

/-! # Claim C5 -/

/-- C5.  Incremental candidate filtering: with the incremental flag set and
a nonempty checkpoint fetched set, the candidate endpoints selected for the
run are exactly the catalog endpoints whose priority weight exceeds 0.6 and
whose name is not in the fetched set; with the flag unset, or with an empty
fetched set, the full catalog is selected. -/
theorem incremental_filtering :
    (∀ fetched : List String, fetched ≠ [] →
      ∀ n, n ∈ endpointsToFetch true fetched ↔
        (n ∈ all_endpoints ∧ mkRat 6 10 < priorityOf n ∧ n ∉ fetched)) ∧
    (∀ fetched, endpointsToFetch false fetched = all_endpoints) ∧
    endpointsToFetch true [] = all_endpoints := by
  refine ⟨?_, ?_, rfl⟩
  · intro fetched hne n
    have hcond : (true && !fetched.isEmpty) = true := by
      cases fetched
      · exact absurd rfl hne
      · simp
    rw [endpointsToFetch, if_pos hcond, List.mem_filter]
    simp
  · intro fetched
    rw [endpointsToFetch, if_neg (by simp)]

/-- Witness for C5: from a checkpoint that already fetched the priority-0.3
loadout endpoint, the premier aggregated endpoint (priority 0.9) is a
candidate. -/
theorem incremental_filtering_witness :
    (["v2_loadout_segments"] : List String) ≠ [] ∧
    ("v1_premier_aggregated" ∈ endpointsToFetch true ["v2_loadout_segments"] ↔
      ("v1_premier_aggregated" ∈ all_endpoints ∧
        mkRat 6 10 < priorityOf "v1_premier_aggregated" ∧
        "v1_premier_aggregated" ∉ (["v2_loadout_segments"] : List String))) :=
  ⟨by decide, incremental_filtering.1 ["v2_loadout_segments"] (by decide)
    "v1_premier_aggregated"⟩

/-! # Claim C6 -/

/-- C6 counterexample.  For a player whose checkpoint has the nonempty
fetched set containing a, a non-incremental (full) smart_update_player call
does not reset the set: create_checkpoint keeps it, and after the whole
full run (every fetch failing, so nothing new is added) the stored
checkpoint still holds exactly a — it was never reset to empty. -/
theorem full_update_no_reset_counterexample :
    (create_checkpoint exCheckpoints "p" 9).1.endpoints_fetched = ["a"] ∧
    (lookupCheckpoint
        (smart_update_player true "p" false exEnvAllFail exCheckpoints 9 10).2
        "p").map UpdateCheckpoint.endpoints_fetched = some ["a"] := by
  refine ⟨rfl, ?_⟩
  decide

theorem mem_insertIfAbsent (x e : String) (l : List String) (h : e ∈ l) :
    e ∈ insertIfAbsent x l := by
  rw [insertIfAbsent]
  by_cases hc : l.contains x
  · rw [if_pos hc]; exact h
  · rw [if_neg hc]; exact List.mem_append_left _ h

theorem mem_stepEndpoint_fetched (env : String → EndpointOutcome) (st : RunState)
    (e x : String) (h : x ∈ st.endpoints_fetched) :
    x ∈ (stepEndpoint env st e).endpoints_fetched := by
  rw [stepEndpoint]
  cases env e with
  | raised => exact h
  | returns r =>
    cases r with
    | success d => exact mem_insertIfAbsent e x st.endpoints_fetched h
    | json_error => exact h
    | http_error => exact h
    | error => exact h
    | max_retries_exceeded => exact h

/-- C6 amended.  A full (non-incremental) update does not reset the
checkpoint fetched set: create_checkpoint preserves endpoints_fetched for
an existing player, resetting only retry_count to 0 and refreshing
last_update, and the fetch loop only ever adds endpoints to the set, so the
set never shrinks during the run. -/
theorem full_update_checkpoint_amended :
    (∀ cps pid (t : ℤ) cp, lookupCheckpoint cps pid = some cp →
      (create_checkpoint cps pid t).1.endpoints_fetched = cp.endpoints_fetched ∧
      (create_checkpoint cps pid t).1.retry_count = 0 ∧
      (create_checkpoint cps pid t).1.last_update = t) ∧
    (∀ (incr : Bool) env (cands : List String) (st : RunState),
      ∀ x ∈ st.endpoints_fetched, x ∈ (fetchLoop incr env cands st).endpoints_fetched) := by
  constructor
  · intro cps pid t cp h
    rw [create_checkpoint, h]
    exact ⟨rfl, rfl, rfl⟩
  · intro incr env cands
    induction cands with
    | nil => intro st x h; exact h
    | cons e rest ih =>
      intro st x h
      rw [fetchLoop]
      cases henv : env e with
      | raised => exact ih (stepEndpoint env st e) x (mem_stepEndpoint_fetched env st e x h)
      | returns r =>
        by_cases hterm : earlyTermB incr (stepEndpoint env st e) = true
        · rw [if_pos hterm]
          exact mem_stepEndpoint_fetched env st e x h
        · rw [if_neg hterm]
          exact ih (stepEndpoint env st e) x (mem_stepEndpoint_fetched env st e x h)

/-- Witness for C6 amended: applied to the concrete checkpoint map. -/
theorem full_update_checkpoint_amended_witness :
    lookupCheckpoint exCheckpoints "p" = some exCheckpointP ∧
    ((create_checkpoint exCheckpoints "p" 9).1.endpoints_fetched =
        exCheckpointP.endpoints_fetched ∧
      (create_checkpoint exCheckpoints "p" 9).1.retry_count = 0 ∧
      (create_checkpoint exCheckpoints "p" 9).1.last_update = 9) :=
  ⟨by decide,
    full_update_checkpoint_amended.1 exCheckpoints "p" 9 exCheckpointP (by decide)⟩

/-! # Claim C7 -/

/-- C7 counterexample.  With session creation failing, smart_update_player
does not return a structured error outcome: the create_session exception
propagates out of the call (an Except error, not an UpdateOutcome), so the
caller does need exception handling to interpret the result. -/
theorem session_failure_counterexample :
    (smart_update_player false "p" true exEnvAllOk [] 0 1).1 =
      Except.error "session creation failed" := rfl

/-- C7 amended.  A session-establishment failure propagates out of
smart_update_player as a raised exception carrying no endpoint results; the
conversion into a structured outcome happens one level up: bulk_smart_update
gathers each task with its exception and turns the exception into a
create_error_response entry for that player, so only the bulk entry point
returns structured error values. -/
theorem session_failure_amended :
    (∀ rid (incr : Bool) env cps (t1 t2 : ℤ),
      (smart_update_player false rid incr env cps t1 t2).1 =
        Except.error "session creation failed") ∧
    (∀ rid e, processGatherResult rid (Except.error e) =
      BulkEntry.error_response rid e) ∧
    (∀ rid env db jf cps (t1 t2 : ℤ) (sessOf : String → Bool) riot_ids,
      rid ∈ playersToUpdate db jf riot_ids → sessOf rid = false →
      BulkEntry.error_response rid "session creation failed" ∈
        bulk_smart_update sessOf env db jf cps t1 t2 riot_ids) := by
  refine ⟨?_, ?_, ?_⟩
  · intro rid incr env cps t1 t2
    rfl
  · intro rid e
    rfl
  · intro rid env db jf cps t1 t2 sessOf riot_ids hmem hsess
    rw [bulk_smart_update]
    have : processGatherResult rid
        (smart_update_player (sessOf rid) rid true env cps t1 t2).1 =
        BulkEntry.error_response rid "session creation failed" := by
      rw [hsess]
      rfl
    rw [← this]
    exact List.mem_map_of_mem _ hmem

/-- Witness for C7 amended: a concrete one-player bulk run with a failing
session yields the structured error entry. -/
theorem session_failure_amended_witness :
    ("p" ∈ playersToUpdate (fun _ => none) (fun _ => 0) ["p"] ∧
      (fun _ => false : String → Bool) "p" = false) ∧
    BulkEntry.error_response "p" "session creation failed" ∈
      bulk_smart_update (fun _ => false) exEnvAllOk (fun _ => none) (fun _ => 0)
        [] 0 1 ["p"] :=
  ⟨⟨by decide, rfl⟩,
    session_failure_amended.2.2 "p" exEnvAllOk (fun _ => none) (fun _ => 0) [] 0 1
      (fun _ => false) ["p"] (by decide) rfl⟩

/-! # Claim C8 -/

/-- C8.  Staleness selection: for a player whose last update lies more than
24 hours in the past, the deterministic age component of the priority score
is 1.0 (at least 1.0), so should_update_player returns true for every
nonnegative value of the random jitter term, and such a player is kept by
the bulk-update filter. -/
theorem staleness_selection (hours jitter : ℚ) (h24 : 24 < hours)
    (hj : 0 ≤ jitter) :
    agePoints hours = 1 ∧
    should_update_player (some hours) jitter = true ∧
    (∀ (db : String → Option (Option ℚ)) (jf : String → ℚ) (ids : List String)
      (rid : String), rid ∈ ids → db rid = some (some hours) → jf rid = jitter →
      rid ∈ playersToUpdate db jf ids) := by
  have hage : agePoints hours = 1 := by rw [agePoints, if_pos h24]
  have hhalf : (mkRat 1 2 : ℚ) ≤ 1 := by decide
  have hsu : should_update_player (some hours) jitter = true := by
    rw [should_update_player, hage]
    refine decide_eq_true ?_
    linarith
  refine ⟨hage, hsu, ?_⟩
  intro db jf ids rid hmem hdb hjf
  rw [playersToUpdate]
  refine List.mem_filter.mpr ⟨hmem, ?_⟩
  simp [hdb, hjf, hsu]

/-- Witness for C8: a player last updated 25 hours ago, with zero jitter,
is selected. -/
theorem staleness_selection_witness :
    ((24 : ℚ) < 25 ∧ (0 : ℚ) ≤ 0) ∧
    (agePoints 25 = 1 ∧ should_update_player (some 25) 0 = true ∧
      ∀ (db : String → Option (Option ℚ)) (jf : String → ℚ) (ids : List String)
        (rid : String), rid ∈ ids → db rid = some (some 25) → jf rid = 0 →
        rid ∈ playersToUpdate db jf ids) :=
  ⟨⟨by decide, by decide⟩, staleness_selection 25 0 (by decide) (by decide)⟩

/-! # Claim C9 -/

theorem splitFirstHash_append (u t : List Char) (hu : '#' ∉ u) :
    splitFirstHash (u ++ '#' :: t) = (u, t) := by
  induction u with
  | nil => simp [splitFirstHash]
  | cons c cs ih =>
    have hc : ¬ (c = '#') := fun he => hu (he ▸ List.mem_cons_self c cs)
    have hcs : '#' ∉ cs := fun h => hu (List.mem_cons_of_mem c h)
    rw [List.cons_append, splitFirstHash]
    simp only [if_neg hc, ih hcs]

/-- C9.  Riot-id parsing splits only at the first hash: for a username with
no hash and any tag, parsing the joined id returns the pair exactly; a
hashless string parses to itself with an empty tag and encodes to itself
unchanged (the empty string included); and for a nonempty tag the encoding
replaces exactly the first hash by %23. -/
theorem parse_encode_riot_id_spec :
    (∀ u t : List Char, '#' ∉ u → parse_riot_id (u ++ '#' :: t) = (u, t)) ∧
    (∀ s : List Char, '#' ∉ s → parse_riot_id s = (s, []) ∧ encode_riot_id s = s) ∧
    (parse_riot_id [] = ([], []) ∧ encode_riot_id [] = []) ∧
    (∀ u t : List Char, '#' ∉ u → t ≠ [] →
      encode_riot_id (u ++ '#' :: t) = u ++ '%' :: '2' :: '3' :: t) := by
  have hparse : ∀ u t : List Char, '#' ∉ u →
      parse_riot_id (u ++ '#' :: t) = (u, t) := by
    intro u t hu
    rw [parse_riot_id,
      if_pos (List.mem_append_right u (List.mem_cons_self '#' t))]
    exact splitFirstHash_append u t hu
  have hnone : ∀ s : List Char, '#' ∉ s →
      parse_riot_id s = (s, []) ∧ encode_riot_id s = s := by
    intro s hs
    have h1 : parse_riot_id s = (s, []) := by rw [parse_riot_id, if_neg hs]
    exact ⟨h1, by rw [encode_riot_id, h1]; rfl⟩
  refine ⟨hparse, hnone, hnone [] (by simp), ?_⟩
  intro u t hu ht
  rw [encode_riot_id, hparse u t hu]
  simp [ht]

/-- Witness for C9: concrete ids exercising every clause, including a tag
that itself contains a hash. -/
theorem parse_encode_riot_id_witness :
    ('#' ∉ (['a', 'b'] : List Char) ∧ '#' ∉ (['x'] : List Char) ∧
      (['c', '#', 'd'] : List Char) ≠ []) ∧
    parse_riot_id (['a', 'b'] ++ '#' :: ['c', '#', 'd']) = (['a', 'b'], ['c', '#', 'd']) ∧
    (parse_riot_id ['x'] = (['x'], []) ∧ encode_riot_id ['x'] = ['x']) ∧
    encode_riot_id (['a', 'b'] ++ '#' :: ['c', '#', 'd']) =
      ['a', 'b'] ++ '%' :: '2' :: '3' :: ['c', '#', 'd'] :=
  ⟨⟨by decide, by decide, by decide⟩,
    parse_encode_riot_id_spec.1 ['a', 'b'] ['c', '#', 'd'] (by decide),
    parse_encode_riot_id_spec.2.1 ['x'] (by decide),
    parse_encode_riot_id_spec.2.2.2 ['a', 'b'] ['c', '#', 'd'] (by decide) (by decide)⟩

/-! # Claim C10 -/

theorem stepEndpoint_succ_le (env : String → EndpointOutcome) (st : RunState)
    (e : String) :
    (stepEndpoint env st e).successful_fetches ≤ st.successful_fetches + 1 := by
  rw [stepEndpoint]
  cases env e with
  | raised => exact Nat.le_succ _
  | returns r => cases r <;> simp [Nat.le_succ]

theorem fetchLoop_succ_le (incr : Bool) (env : String → EndpointOutcome) :
    ∀ (cands : List String) (st : RunState),
      (fetchLoop incr env cands st).successful_fetches ≤
        st.successful_fetches + cands.length := by
  intro cands
  induction cands with
  | nil => intro st; simp [fetchLoop]
  | cons e rest ih =>
    intro st
    have h2 := stepEndpoint_succ_le env st e
    rw [fetchLoop]
    cases henv : env e with
    | raised =>
      have h1 := ih (stepEndpoint env st e)
      simp only [List.length_cons]
      omega
    | returns r =>
      by_cases hterm : earlyTermB incr (stepEndpoint env st e) = true
      · rw [if_pos hterm]
        simp only [List.length_cons]
        omega
      · rw [if_neg hterm]
        have h1 := ih (stepEndpoint env st e)
        simp only [List.length_cons]
        omega

theorem insertByPriorityDesc_length (e : String) :
    ∀ l : List String, (insertByPriorityDesc e l).length = l.length + 1 := by
  intro l
  induction l with
  | nil => rfl
  | cons x xs ih =>
    rw [insertByPriorityDesc]
    by_cases h : priorityOf x ≤ priorityOf e
    · rw [if_pos h]; rfl
    · rw [if_neg h]
      simp [ih]

theorem sortByPriorityDesc_length :
    ∀ l : List String, (sortByPriorityDesc l).length = l.length := by
  intro l
  induction l with
  | nil => rfl
  | cons x xs ih =>
    have h1 : sortByPriorityDesc (x :: xs) =
        insertByPriorityDesc x (sortByPriorityDesc xs) := rfl
    rw [h1, insertByPriorityDesc_length, ih]
    rfl

theorem smartUpdateCore_summary (rid : String) (incr : Bool)
    (env : String → EndpointOutcome) (cp : UpdateCheckpoint) (t2 : ℤ) :
    (smartUpdateCore rid incr env cp t2).1.summary.successful +
        (smartUpdateCore rid incr env cp t2).1.summary.failed =
      (smartUpdateCore rid incr env cp t2).1.summary.total_endpoints ∧
    (smartUpdateCore rid incr env cp t2).1.summary.total_endpoints =
      ((endpointsToFetch incr cp.endpoints_fetched).length : ℤ) ∧
    (smartUpdateCore rid incr env cp t2).1.summary.successful ≤
      (smartUpdateCore rid incr env cp t2).1.summary.total_endpoints := by
  have hsucc : (fetchLoop incr env
      (sortByPriorityDesc (endpointsToFetch incr cp.endpoints_fetched))
      (initRunState cp)).successful_fetches ≤
      (endpointsToFetch incr cp.endpoints_fetched).length := by
    have h1 := fetchLoop_succ_le incr env
      (sortByPriorityDesc (endpointsToFetch incr cp.endpoints_fetched))
      (initRunState cp)
    rw [sortByPriorityDesc_length] at h1
    simpa [initRunState] using h1
  refine ⟨?_, rfl, ?_⟩
  · simp [smartUpdateCore]
  · simp only [smartUpdateCore]
    exact_mod_cast hsucc

/-- C10.  Every outcome returned by smart_update_player satisfies
successful + failed = total_endpoints, where total_endpoints is the number
of candidate endpoints selected for the run (so candidates never attempted
because of early termination are counted in failed), and successful never
exceeds the total. -/
theorem summary_count_identity (rid : String) (incr : Bool)
    (env : String → EndpointOutcome) (cps : List (String × UpdateCheckpoint))
    (t1 t2 : ℤ) (o : UpdateOutcome)
    (h : (smart_update_player true rid incr env cps t1 t2).1 = Except.ok o) :
    o.summary.successful + o.summary.failed = o.summary.total_endpoints ∧
    o.summary.total_endpoints =
      ((endpointsToFetch incr
        (create_checkpoint cps rid t1).1.endpoints_fetched).length : ℤ) ∧
    o.summary.successful ≤ o.summary.total_endpoints := by
  have ho : o = (smartUpdateCore rid incr env (create_checkpoint cps rid t1).1 t2).1 := by
    simp [smart_update_player] at h
    exact h.symm
  rw [ho]
  exact smartUpdateCore_summary rid incr env (create_checkpoint cps rid t1).1 t2

/-- Witness for C10: the concrete all-success run for a fresh player. -/
theorem summary_count_identity_witness :
    (smart_update_player true "p" true exEnvAllOk [] 0 1).1 = Except.ok exOutcome ∧
    (exOutcome.summary.successful + exOutcome.summary.failed =
        exOutcome.summary.total_endpoints ∧
      exOutcome.summary.total_endpoints =
        ((endpointsToFetch true
          (create_checkpoint [] "p" 0).1.endpoints_fetched).length : ℤ) ∧
      exOutcome.summary.successful ≤ exOutcome.summary.total_endpoints) :=
  ⟨rfl, summary_count_identity "p" true exEnvAllOk [] 0 1 exOutcome rfl⟩

end TrackerGG

